import Mathlib

/-!
# LSB image steganography: embedding of `encode.c` and `decode.c`

Conventions of the embedding.

* A byte (`char`, `unsigned char`) is a `Nat` below 256: the value of its eight bits.
* An `int` or `uint` is a `Nat` below `2 ^ 32`: its 32-bit pattern (two's complement
  for `int`).  Arithmetic on `uint` is taken `% 2 ^ 32`.
* A C string is the list of its characters before the terminating NUL.
* A `FILE *` is the state of the stream it points to.  Files are byte lists; the
  file system is a parameter (`FileSys`).
* A local array that the C code declares without initialising it starts with
  indeterminate content; that content is the parameter `junk`.
* The shift `1 << 31` on `int` is taken as the pattern `2 ^ 31`, and `uint` objects are
  stored little-endian, as on the usual two's-complement targets.
* `printf`, `perror` and `fprintf` calls are not modelled.
* A write past the end of an array has no defined behaviour in C.  The definitions
  `decode_secret_file_extn` and `do_decoding` give the result of a run in which every write
  stays inside its array; `read_and_validate_decode_args`, `decode_secret_file_extn_checked`
  and `do_decoding_checked` carry the bounds of the arrays themselves and return `none`
  where a write falls outside one.
-/

namespace Stego

/-! ## Types -/

/-- Modelled from the spec: the result type `Status` of the header `types.h`, which is
not part of the sources; every field-level step returns success or failure. -/
inductive Status where
  | e_success
  | e_failure
  deriving DecidableEq, Repr

/-- Modelled from the spec: the constant `MAGIC_STRING` of the header `common.h`, which is
not part of the sources; the marker is the literal two-character sequence `#*`. -/
def MAGIC_STRING : List Nat := [35, 42]

/-- Life cycle of a `FILE *` field: never opened (or `NULL`), open, closed by `fclose`. -/
inductive Mode where
  | unopened
  | opened
  | closed
  deriving DecidableEq, Repr

/-- A stream opened with mode `"r"`: the bytes of the file and the read position. -/
structure RFile where
  data : List Nat
  pos : Nat
  mode : Mode
  deriving DecidableEq, Repr

/-- A stream opened with mode `"w"`: the bytes written so far. -/
structure WFile where
  data : List Nat
  mode : Mode
  deriving DecidableEq, Repr

/-- The environment of `fopen`: which names can be opened for reading (with the bytes of
the file) and which can be opened for writing. -/
structure FileSys where
  readable : List Nat → Option (List Nat)
  writable : List Nat → Bool

/-- The structure `EncodeInfo` of `encode.h`. -/
structure EncodeInfo where
  src_image_fname : List Nat
  fptr_src_image : RFile
  image_capacity : Nat
  secret_fname : List Nat
  fptr_secret : RFile
  secret_file_size : Nat
  extn_secret_file : List Nat
  stego_image_fname : List Nat
  fptr_stego_image : WFile
  deriving DecidableEq, Repr

/-- The structure `DecodeInfo` of `decode.h`. -/
structure DecodeInfo where
  stego_image_fname : List Nat
  fptr_stego_image : RFile
  secret_output_fname : List Nat
  fptr_secret_output : WFile
  extn_size : Nat
  secret_file_size : Nat
  deriving DecidableEq, Repr

/-- Number of bytes of the array `secret_output_fname` of `DecodeInfo` (`decode.h`). -/
def secret_output_fname_size : Nat := 50

/-! ## C library and integer conversions -/

/-- Integer promotion of a (signed) `char` to `int`: sign extension of the byte to 32 bits. -/
def char_to_int (c : Nat) : Nat := if c < 128 then c else c + 4294967040

/-- Conversion of an `int` to `char`: the low eight bits. -/
def int_to_char (x : Nat) : Nat := x % 256

/-- Conversion of a `size_t`, `long` or `uint` value to `int` or `uint`: the low 32 bits. -/
def to_int32 (v : Nat) : Nat := v % 4294967296

/-- Number of iterations of `for (int i = 0; i < size; i++)` for the `int` with pattern
`size`: none when `size` is negative. -/
def int_loop_count (size : Nat) : Nat := if size < 2147483648 then size else 0

/-- Content of a local array of `n` bytes that has not been initialised: byte `i` holds
`junk i % 256`. -/
def uninit (junk : Nat → Nat) (n : Nat) : List Nat := (List.range n).map (fun i => junk i % 256)

/-- Length of a C string (`strlen`). -/
def strlen (s : List Nat) : Nat := s.length

/-- The C string held by a character array: the characters before the first NUL. -/
def cstr (a : List Nat) : List Nat := a.takeWhile (fun c => c != 0)

/-- Test `strcmp(a, b) == 0` on two character arrays. -/
def strcmp_eq (a b : List Nat) : Bool := decide (cstr a = cstr b)

/-- Call `strcat(dest, src)` on an array of `n` bytes that holds the string `dest`: the
string it holds afterwards.  The characters of `src` and the terminating NUL are written
behind those of `dest`; `none` stands for a write past the end of the array, where the
behaviour of the program is undefined. -/
def strcat (n : Nat) (dest src : List Nat) : Option (List Nat) :=
  if strlen dest + strlen src + 1 ≤ n then some (dest ++ src) else none

/-- Read `fread(buf, 1, n, f)`: the bytes available (at most `n`) overwrite the start of
`buf`, the rest of `buf` keeps its content, the position advances by the bytes read. -/
def fread (buf : List Nat) (n : Nat) (f : RFile) : List Nat × RFile :=
  let got := (f.data.drop f.pos).take n
  (got ++ buf.drop got.length, { f with pos := f.pos + got.length })

/-- Write `fwrite(buf, 1, n, f)`. -/
def fwrite (buf : List Nat) (n : Nat) (f : WFile) : WFile :=
  { f with data := f.data ++ buf.take n }

/-- Read one byte, `fgetc(f)`: `none` stands for `EOF`. -/
def fgetc (f : RFile) : Option Nat × RFile :=
  match f.data.drop f.pos with
  | [] => (none, f)
  | ch :: _ => (some ch, { f with pos := f.pos + 1 })

/-- Write one byte, `fputc(ch, f)`. -/
def fputc (ch : Nat) (f : WFile) : WFile :=
  { f with data := f.data ++ [ch] }

/-- Position the stream, `fseek(f, off, SEEK_SET)`. -/
def fseek_set (f : RFile) (off : Nat) : RFile := { f with pos := off }

/-- Reset the position, `rewind(f)`. -/
def rewind (f : RFile) : RFile := { f with pos := 0 }

/-- Close a read stream, `fclose(f)`. -/
def fclose_r (f : RFile) : RFile := { f with mode := Mode.closed }

/-- Close a write stream, `fclose(f)`. -/
def fclose_w (f : WFile) : WFile := { f with mode := Mode.closed }

/-- Open for reading, `fopen(name, "r")`: `none` stands for `NULL`. -/
def fopen_r (fs : FileSys) (name : List Nat) : Option RFile :=
  match fs.readable name with
  | none => none
  | some d => some { data := d, pos := 0, mode := Mode.opened }

/-- Open for writing, `fopen(name, "w")`: the file is created or truncated. -/
def fopen_w (fs : FileSys) (name : List Nat) : Option WFile :=
  if fs.writable name then some { data := [], mode := Mode.opened } else none

/-- A `NULL` read stream. -/
def null_r : RFile := { data := [], pos := 0, mode := Mode.unopened }

/-- A `NULL` write stream. -/
def null_w : WFile := { data := [], mode := Mode.unopened }

/-- Value of a `uint` object whose four bytes are `b` (little-endian storage). -/
def le32 (b : List Nat) : Nat :=
  (b.getD 0 0 + 256 * b.getD 1 0 + 65536 * b.getD 2 0 + 16777216 * b.getD 3 0) % 4294967296

/-! ## encode.c -/

/-- Function `get_image_size_for_bmp`: width and height are read at offset 18. -/
def get_image_size_for_bmp (fptr_image : RFile) (junk : Nat → Nat) : Nat × RFile :=
  let f1 := fseek_set fptr_image 18
  let r1 := fread (uninit junk 4) 4 f1
  let width := le32 r1.1
  let r2 := fread (uninit junk 4) 4 r1.2
  let height := le32 r2.1
  ((width * height * 3) % 4294967296, r2.2)

/-- Function `get_file_size`: seek to the end, take the position, rewind. -/
def get_file_size (fptr : RFile) : Nat × RFile :=
  let f1 : RFile := { fptr with pos := fptr.data.length }
  let pos := to_int32 f1.pos
  (pos, rewind f1)

/-- Function `open_files`. -/
def open_files (fs : FileSys) (encInfo : EncodeInfo) : Status × EncodeInfo :=
  match fopen_r fs encInfo.src_image_fname with
  | none => (Status.e_failure, { encInfo with fptr_src_image := null_r })
  | some src =>
    let e1 := { encInfo with fptr_src_image := src }
    match fopen_r fs e1.secret_fname with
    | none => (Status.e_failure, { e1 with fptr_secret := null_r })
    | some sec =>
      let e2 := { e1 with fptr_secret := sec }
      match fopen_w fs e2.stego_image_fname with
      | none => (Status.e_failure, { e2 with fptr_stego_image := null_w })
      | some out => (Status.e_success, { e2 with fptr_stego_image := out })

/-- The local `Encoding_things` of `check_capacity`: total bytes needed for encoding. -/
def Encoding_things (magic_string_len Extension_len secret_file_size : Nat) : Nat :=
  (54 + (magic_string_len + 4 + Extension_len + 4 + secret_file_size) * 8) % 4294967296

/-- Function `check_capacity`. -/
def check_capacity (encInfo : EncodeInfo) (junk : Nat → Nat) : Status × EncodeInfo :=
  let r := get_file_size encInfo.fptr_secret
  let e1 := { encInfo with secret_file_size := r.1, fptr_secret := r.2 }
  if e1.secret_file_size = 0 then (Status.e_failure, e1)
  else
    let c := get_image_size_for_bmp e1.fptr_src_image junk
    let e2 := { e1 with image_capacity := c.1, fptr_src_image := c.2 }
    let magic_string_len := to_int32 (strlen MAGIC_STRING)
    let Extension_len := to_int32 (strlen e2.extn_secret_file)
    if e2.image_capacity > Encoding_things magic_string_len Extension_len e2.secret_file_size
    then (Status.e_success, e2)
    else (Status.e_failure, e2)

/-- Function `copy_bmp_header`. -/
def copy_bmp_header (fptr_src_image : RFile) (fptr_dest_image : WFile) (junk : Nat → Nat) :
    Status × RFile × WFile :=
  let r := fread (uninit junk 54) 54 (rewind fptr_src_image)
  (Status.e_success, r.2, fwrite r.1 54 fptr_dest_image)

/-- Function `encode_byte_to_lsb`: the returned list is the buffer after the call. -/
def encode_byte_to_lsb (data : Nat) (image_buffer : List Nat) : Status × List Nat :=
  (Status.e_success,
    (List.range 8).foldl (fun buf i =>
      let bit := char_to_int data &&& (1 <<< (7 - i))
      let buf1 := buf.set i (int_to_char (char_to_int (buf.getD i 0) &&& 4294967294))
      if bit ≠ 0 then buf1.set i (int_to_char (char_to_int (buf1.getD i 0) ||| 1)) else buf1)
    image_buffer)

/-- Function `encode_int_to_lsb`: the returned list is the buffer after the call. -/
def encode_int_to_lsb (data : Nat) (image_buffer : List Nat) : Status × List Nat :=
  (Status.e_success,
    (List.range 32).foldl (fun buf i =>
      let bit := data &&& ((1 <<< (31 - i)) % 4294967296)
      let buf1 := buf.set i (int_to_char (char_to_int (buf.getD i 0) &&& 4294967294))
      if bit ≠ 0 then buf1.set i (int_to_char (char_to_int (buf1.getD i 0) ||| 1)) else buf1)
    image_buffer)

/-- Function `encode_data_to_image`; `size` is the pattern of the `int` argument.  The
local `buffer` keeps its content from one iteration to the next. -/
def encode_data_to_image (data : List Nat) (size : Nat) (encInfo : EncodeInfo)
    (junk : Nat → Nat) : Status × EncodeInfo :=
  let r := (List.range (int_loop_count size)).foldl
    (fun (st : List Nat × EncodeInfo) i =>
      let rd := fread st.1 8 st.2.fptr_src_image
      let buffer := (encode_byte_to_lsb (data.getD i 0) rd.1).2
      (buffer, { st.2 with fptr_src_image := rd.2,
                           fptr_stego_image := fwrite buffer 8 st.2.fptr_stego_image }))
    (uninit junk 8, encInfo)
  (Status.e_success, r.2)

/-- Function `encode_magic_string`. -/
def encode_magic_string (magic_string : List Nat) (encInfo : EncodeInfo) (junk : Nat → Nat) :
    Status × EncodeInfo :=
  let r := encode_data_to_image magic_string (to_int32 (strlen magic_string)) encInfo junk
  if r.1 = Status.e_success then (Status.e_success, r.2) else (Status.e_failure, r.2)

/-- Function `encode_secret_file_extn_size`; `size` is the pattern of the `int` argument. -/
def encode_secret_file_extn_size (size : Nat) (encInfo : EncodeInfo) (junk : Nat → Nat) :
    Status × EncodeInfo :=
  let rd := fread (uninit junk 32) 32 encInfo.fptr_src_image
  let buffer := (encode_int_to_lsb size rd.1).2
  (Status.e_success, { encInfo with fptr_src_image := rd.2,
                                    fptr_stego_image := fwrite buffer 32 encInfo.fptr_stego_image })

/-- Function `encode_secret_file_extn`. -/
def encode_secret_file_extn (file_extn : List Nat) (encInfo : EncodeInfo) (junk : Nat → Nat) :
    Status × EncodeInfo :=
  let r := encode_data_to_image file_extn (to_int32 (strlen file_extn)) encInfo junk
  if r.1 = Status.e_success then (Status.e_success, r.2) else (Status.e_failure, r.2)

/-- Function `encode_secret_file_size`; `file_size` is the `long` argument, converted to
`int` in the call of `encode_int_to_lsb`. -/
def encode_secret_file_size (file_size : Nat) (encInfo : EncodeInfo) (junk : Nat → Nat) :
    Status × EncodeInfo :=
  let rd := fread (uninit junk 32) 32 encInfo.fptr_src_image
  let buffer := (encode_int_to_lsb (to_int32 file_size) rd.1).2
  (Status.e_success, { encInfo with fptr_src_image := rd.2,
                                    fptr_stego_image := fwrite buffer 32 encInfo.fptr_stego_image })

/-- Function `encode_secret_file_data`: the whole secret file is read into a local array of
`secret_file_size` bytes, then packed. -/
def encode_secret_file_data (encInfo : EncodeInfo) (junk : Nat → Nat) : Status × EncodeInfo :=
  let rd := fread (uninit junk encInfo.secret_file_size) encInfo.secret_file_size
    encInfo.fptr_secret
  let e1 := { encInfo with fptr_secret := rd.2 }
  let r := encode_data_to_image rd.1 (to_int32 e1.secret_file_size) e1 junk
  if r.1 = Status.e_success then (Status.e_success, r.2) else (Status.e_failure, r.2)

/-- Loop of `copy_remaining_img_data`: `fgetc` until `EOF`, at most `fuel` iterations. -/
def copy_remaining_loop : Nat → RFile → WFile → RFile × WFile
  | 0, src, dest => (src, dest)
  | fuel + 1, src, dest =>
    match fgetc src with
    | (none, src1) => (src1, dest)
    | (some ch, src1) => copy_remaining_loop fuel src1 (fputc ch dest)

/-- Function `copy_remaining_img_data`; the fuel exceeds the number of bytes left, so the
loop always ends on `EOF`. -/
def copy_remaining_img_data (fptr_src : RFile) (fptr_dest : WFile) : Status × RFile × WFile :=
  let r := copy_remaining_loop (fptr_src.data.length - fptr_src.pos + 1) fptr_src fptr_dest
  (Status.e_success, r.1, r.2)

/-- Function `do_encoding`: the returned `EncodeInfo` is the state when the function
returns. -/
def do_encoding (fs : FileSys) (encInfo : EncodeInfo) (junk : Nat → Nat) : Status × EncodeInfo :=
  match open_files fs encInfo with
  | (Status.e_failure, e0) => (Status.e_failure, e0)
  | (Status.e_success, e0) =>
  match check_capacity e0 junk with
  | (Status.e_failure, e1) => (Status.e_failure, e1)
  | (Status.e_success, e1) =>
  match copy_bmp_header e1.fptr_src_image e1.fptr_stego_image junk with
  | (Status.e_failure, src, dest) =>
    (Status.e_failure, { e1 with fptr_src_image := src, fptr_stego_image := dest })
  | (Status.e_success, src, dest) =>
  match encode_magic_string MAGIC_STRING
      { e1 with fptr_src_image := src, fptr_stego_image := dest } junk with
  | (Status.e_failure, e3) => (Status.e_failure, e3)
  | (Status.e_success, e3) =>
  match encode_secret_file_extn_size (to_int32 (strlen e3.extn_secret_file)) e3 junk with
  | (Status.e_failure, e4) => (Status.e_failure, e4)
  | (Status.e_success, e4) =>
  match encode_secret_file_extn e4.extn_secret_file e4 junk with
  | (Status.e_failure, e5) => (Status.e_failure, e5)
  | (Status.e_success, e5) =>
  match encode_secret_file_size e5.secret_file_size e5 junk with
  | (Status.e_failure, e6) => (Status.e_failure, e6)
  | (Status.e_success, e6) =>
  match encode_secret_file_data e6 junk with
  | (Status.e_failure, e7) => (Status.e_failure, e7)
  | (Status.e_success, e7) =>
  match copy_remaining_img_data e7.fptr_src_image e7.fptr_stego_image with
  | (Status.e_failure, src8, dest8) =>
    (Status.e_failure, { e7 with fptr_src_image := src8, fptr_stego_image := dest8 })
  | (Status.e_success, src8, dest8) =>
    (Status.e_success,
      { e7 with fptr_src_image := fclose_r src8,
                fptr_secret := fclose_r e7.fptr_secret,
                fptr_stego_image := fclose_w dest8 })

/-! ## decode.c -/

/-- Function `open_files_dec`. -/
def open_files_dec (fs : FileSys) (decInfo : DecodeInfo) : Status × DecodeInfo :=
  match fopen_r fs decInfo.stego_image_fname with
  | none => (Status.e_failure, { decInfo with fptr_stego_image := null_r })
  | some f => (Status.e_success, { decInfo with fptr_stego_image := f })

/-- Function `skip_bmp_header`. -/
def skip_bmp_header (decInfo : DecodeInfo) : Status × DecodeInfo :=
  (Status.e_success, { decInfo with fptr_stego_image := fseek_set decInfo.fptr_stego_image 54 })

/-- Function `decode_bytes_from_lsb`. -/
def decode_bytes_from_lsb (image_buffer : List Nat) : Nat :=
  (List.range 8).foldl (fun ch i =>
      let bit := char_to_int (image_buffer.getD i 0) &&& 1
      if bit ≠ 0 then int_to_char (char_to_int ch ||| (1 <<< (7 - i))) else ch)
    0

/-- Function `decode_int_from_lsb`. -/
def decode_int_from_lsb (image_buffer : List Nat) : Nat :=
  (List.range 32).foldl (fun num i =>
      let bit := char_to_int (image_buffer.getD i 0) &&& 1
      if bit ≠ 0 then num ||| ((1 <<< (31 - i)) % 4294967296) else num)
    0

/-- Function `decode_magic_string`. -/
def decode_magic_string (decInfo : DecodeInfo) (junk : Nat → Nat) : Status × DecodeInfo :=
  let r := (List.range 2).foldl
    (fun (st : List Nat × List Nat × RFile) i =>
      let rd := fread st.2.1 8 st.2.2
      (st.1.set i (decode_bytes_from_lsb rd.1), rd.1, rd.2))
    (uninit junk 3, uninit junk 8, decInfo.fptr_stego_image)
  let magic_string := r.1.set 2 0
  let d1 := { decInfo with fptr_stego_image := r.2.2 }
  if strcmp_eq MAGIC_STRING magic_string then (Status.e_success, d1)
  else (Status.e_failure, d1)

/-- Function `decode_secret_file_extn_size`. -/
def decode_secret_file_extn_size (decInfo : DecodeInfo) (junk : Nat → Nat) :
    Status × DecodeInfo :=
  let rd := fread (uninit junk 32) 32 decInfo.fptr_stego_image
  (Status.e_success, { decInfo with fptr_stego_image := rd.2,
                                    extn_size := decode_int_from_lsb rd.1 })

/-- Function `decode_secret_file_extn`: the extension is decoded, appended to the output
name, and the output file is opened.  This is the result of a run in which the writes to
`extn` and to the name field stay inside the two arrays; their bounds are part of
`decode_secret_file_extn_checked`. -/
def decode_secret_file_extn (fs : FileSys) (decInfo : DecodeInfo) (junk : Nat → Nat) :
    Status × DecodeInfo :=
  let r := (List.range decInfo.extn_size).foldl
    (fun (st : List Nat × List Nat × RFile) i =>
      let rd := fread st.2.1 8 st.2.2
      (st.1.set i (decode_bytes_from_lsb rd.1), rd.1, rd.2))
    (uninit junk (decInfo.extn_size + 1), uninit junk 8, decInfo.fptr_stego_image)
  let extn := r.1.set decInfo.extn_size 0
  let d1 := { decInfo with fptr_stego_image := r.2.2,
                           secret_output_fname := decInfo.secret_output_fname ++ cstr extn }
  match fopen_w fs d1.secret_output_fname with
  | none => (Status.e_failure, { d1 with fptr_secret_output := null_w })
  | some out => (Status.e_success, { d1 with fptr_secret_output := out })

/-- Function `decode_secret_file_size`. -/
def decode_secret_file_size (decInfo : DecodeInfo) (junk : Nat → Nat) : Status × DecodeInfo :=
  let rd := fread (uninit junk 32) 32 decInfo.fptr_stego_image
  (Status.e_success, { decInfo with fptr_stego_image := rd.2,
                                    secret_file_size := decode_int_from_lsb rd.1 })

/-- Function `decode_secret_file_data`. -/
def decode_secret_file_data (decInfo : DecodeInfo) (junk : Nat → Nat) : Status × DecodeInfo :=
  let r := (List.range decInfo.secret_file_size).foldl
    (fun (st : List Nat × DecodeInfo) _ =>
      let rd := fread st.1 8 st.2.fptr_stego_image
      let ch := decode_bytes_from_lsb rd.1
      (rd.1, { st.2 with fptr_stego_image := rd.2,
                         fptr_secret_output := fputc ch st.2.fptr_secret_output }))
    (uninit junk 8, decInfo)
  (Status.e_success, r.2)

/-- Function `do_decoding`: the returned `DecodeInfo` is the state when the function
returns.  The bounds of the arrays of `decode_secret_file_extn` are part of
`do_decoding_checked`. -/
def do_decoding (fs : FileSys) (decInfo : DecodeInfo) (junk : Nat → Nat) : Status × DecodeInfo :=
  match open_files_dec fs decInfo with
  | (Status.e_failure, d0) => (Status.e_failure, d0)
  | (Status.e_success, d0) =>
  match skip_bmp_header d0 with
  | (Status.e_failure, d1) => (Status.e_failure, d1)
  | (Status.e_success, d1) =>
  match decode_magic_string d1 junk with
  | (Status.e_failure, d2) => (Status.e_failure, d2)
  | (Status.e_success, d2) =>
  match decode_secret_file_extn_size d2 junk with
  | (Status.e_failure, d3) => (Status.e_failure, d3)
  | (Status.e_success, d3) =>
  match decode_secret_file_extn fs d3 junk with
  | (Status.e_failure, d4) => (Status.e_failure, d4)
  | (Status.e_success, d4) =>
  match decode_secret_file_size d4 junk with
  | (Status.e_failure, d5) => (Status.e_failure, d5)
  | (Status.e_success, d5) =>
  match decode_secret_file_data d5 junk with
  | (Status.e_failure, d6) => (Status.e_failure, d6)
  | (Status.e_success, d6) =>
    (Status.e_success,
      { d6 with fptr_stego_image := fclose_r d6.fptr_stego_image,
                fptr_secret_output := fclose_w d6.fptr_secret_output })

/-! ## Reference functions used in the statements -/

/-- A carrier byte `x` with its bit 0 replaced by `bit`. -/
def put_bit (x bit : Nat) : Nat := x / 2 * 2 + bit

/-- Bit `n - 1 - i` of `v`: the `i`-th bit of the `n`-bit value `v`, counted MSB-first. -/
def msb_bit (n v i : Nat) : Nat := v / 2 ^ (n - 1 - i) % 2

/-- The window `w` with the `n`-bit value `v` packed MSB-first into bit 0 of its first `n`
bytes. -/
def pack_msb (n v : Nat) (w : List Nat) : List Nat :=
  (List.range n).map (fun i => put_bit (w.getD i 0) (msb_bit n v i)) ++ w.drop n

/-- Value of a bit list read MSB-first. -/
def msb_value (bits : List Nat) : Nat := bits.foldl (fun acc b => 2 * acc + b) 0

/-- The `n` bytes of the stream `s` that start at offset `off`. -/
def window (s : List Nat) (off n : Nat) : List Nat := (s.drop off).take n

/-- The bytes `data[0..k)` packed into `k` consecutive 8-byte windows of the stream `s`
that start at offset `q`. -/
def pack_bytes (data s : List Nat) (q k : Nat) : List Nat :=
  (List.range k).flatMap (fun j => pack_msb 8 (data.getD j 0) (window s (q + 8 * j) 8))

/-- The bytes unpacked from `k` consecutive 8-byte windows of the stream `t` that start at
offset `q`. -/
def unpack_bytes (t : List Nat) (q k : Nat) : List Nat :=
  (List.range k).map (fun j => decode_bytes_from_lsb (window t (q + 8 * j) 8))

/-- The capacity `get_image_size_for_bmp` computes for an image file `s` that holds its
width and height fields in full. -/
def bmp_capacity (s : List Nat) : Nat :=
  (le32 (window s 18 4) * le32 (window s 22 4) * 3) % 4294967296

/-- The stego stream: the header of the source stream `s` copied, the frame for the
extension `ext` and the payload `p` packed field by field into the windows that follow,
the rest of `s` copied.  The lengths are the 32-bit values the encoder passes on and the
counts are the iterations its `int` loops make. -/
def frame_stream (s ext p : List Nat) : List Nat :=
  let E := to_int32 (strlen ext)
  let ne := int_loop_count E
  let S := to_int32 p.length
  let np := int_loop_count S
  window s 0 54 ++ pack_bytes MAGIC_STRING s 54 2 ++ pack_msb 32 E (window s 70 32)
    ++ pack_bytes ext s 102 ne ++ pack_msb 32 S (window s (102 + 8 * ne) 32)
    ++ pack_bytes (p.take S) s (134 + 8 * ne) np ++ s.drop (134 + 8 * ne + 8 * np)

/-! ## Concrete inputs -/

/-- A 354-byte image file: a header whose width and height fields both hold 10 (capacity
300), followed by 300 carrier bytes. -/
def demo_image : List Nat :=
  (List.range 354).map (fun i => if i = 18 then 10 else if i = 22 then 10
    else if i < 54 then 0 else (i * 7 + 3) % 256)

/-- The payload `HELLO`. -/
def demo_secret : List Nat := [72, 69, 76, 76, 79]

/-- The extension `.txt`. -/
def demo_extn : List Nat := [46, 116, 120, 116]

/-- A file system that holds the image under the name `a.bmp` and the payload under the
name `s.txt`, and lets every name be opened for writing. -/
def demo_fs : FileSys :=
  { readable := fun name =>
      if name = [97, 46, 98, 109, 112] then some demo_image
      else if name = [115, 46, 116, 120, 116] then some demo_secret
      else none,
    writable := fun _ => true }

/-- The encoder state for `a.bmp`, `s.txt` and the output name `o.bmp`, before any file is
opened. -/
def demo_encInfo : EncodeInfo :=
  { src_image_fname := [97, 46, 98, 109, 112], fptr_src_image := null_r, image_capacity := 0,
    secret_fname := [115, 46, 116, 120, 116], fptr_secret := null_r, secret_file_size := 0,
    extn_secret_file := demo_extn, stego_image_fname := [111, 46, 98, 109, 112],
    fptr_stego_image := null_w }

/-- Indeterminate memory that happens to hold zeros. -/
def demo_junk : Nat → Nat := fun _ => 0

/-- A file system in which every name opens the given stream `t`. -/
def fs_of_stream (t : List Nat) : FileSys :=
  { readable := fun _ => some t, writable := fun _ => true }

/-- The decoder state for the image name `o.bmp` and the output name `out`, before any
file is opened. -/
def demo_decInfo : DecodeInfo :=
  { stego_image_fname := [111, 46, 98, 109, 112], fptr_stego_image := null_r,
    secret_output_fname := [111, 117, 116], fptr_secret_output := null_w,
    extn_size := 0, secret_file_size := 0 }

/-- A 54-byte header whose width and height fields both hold 65536. -/
def wide_header : List Nat :=
  (List.range 54).map (fun i => if i = 20 then 1 else if i = 24 then 1 else 0)

/-- An encoder state with open streams: the image `wide_header` and a one-byte payload. -/
def wide_encInfo : EncodeInfo :=
  { src_image_fname := [97, 46, 98, 109, 112],
    fptr_src_image := { data := wide_header, pos := 0, mode := Mode.opened },
    image_capacity := 0,
    secret_fname := [115, 46, 116, 120, 116],
    fptr_secret := { data := [65], pos := 0, mode := Mode.opened },
    secret_file_size := 0,
    extn_secret_file := demo_extn, stego_image_fname := [111, 46, 98, 109, 112],
    fptr_stego_image := { data := [], mode := Mode.opened } }

/-- A 54-byte header whose width field holds 61 and whose height field holds 1 (capacity
183). -/
def edge_header : List Nat :=
  (List.range 54).map (fun i => if i = 18 then 61 else if i = 22 then 1 else 0)

/-- An encoder state with open streams: the image `edge_header`, a two-byte payload and
the extension `.txt`, for which 182 bytes are required. -/
def edge_encInfo : EncodeInfo :=
  { src_image_fname := [97, 46, 98, 109, 112],
    fptr_src_image := { data := edge_header, pos := 0, mode := Mode.opened },
    image_capacity := 0,
    secret_fname := [115, 46, 116, 120, 116],
    fptr_secret := { data := [72, 73], pos := 0, mode := Mode.opened },
    secret_file_size := 0,
    extn_secret_file := demo_extn, stego_image_fname := [111, 46, 98, 109, 112],
    fptr_stego_image := { data := [], mode := Mode.opened } }

/-- A file system that holds an image under the name `a.bmp` and an empty payload file
under the name `s.txt`. -/
def empty_secret_fs : FileSys :=
  { readable := fun name =>
      if name = [97, 46, 98, 109, 112] then some demo_image
      else if name = [115, 46, 116, 120, 116] then some []
      else none,
    writable := fun _ => true }

/-! ## Argument validation (encode.c) -/

/-- Function `strstr`: the part of `haystack` that starts at the first occurrence of
`needle`; `none` stands for `NULL`. -/
def strstr : List Nat → List Nat → Option (List Nat)
  | [], needle => if needle = [] then some [] else none
  | c :: cs, needle =>
    if (c :: cs).take needle.length = needle then some (c :: cs) else strstr cs needle

/-- The string `.bmp`. -/
def str_bmp : List Nat := [46, 98, 109, 112]

/-- The string `.txt`. -/
def str_txt : List Nat := [46, 116, 120, 116]

/-- The string `.c`. -/
def str_c : List Nat := [46, 99]

/-- The string `.sh`. -/
def str_sh : List Nat := [46, 115, 104]

/-- The string `stego.bmp`. -/
def str_stego_bmp : List Nat := [115, 116, 101, 103, 111, 46, 98, 109, 112]

/-- Function `read_and_validate_encode_args`: `argv` holds the arguments of the command
line, `argv[i]` with `i` equal to the length of the list being `NULL`. -/
def read_and_validate_encode_args (argv : List (List Nat)) (encInfo : EncodeInfo) :
    Status × EncodeInfo :=
  let sub := strstr (argv.getD 2 []) str_bmp
  if sub ≠ none ∧ strcmp_eq (sub.getD []) str_bmp = true then
    let e1 := { encInfo with src_image_fname := argv.getD 2 [] }
    let sub1 := strstr (argv.getD 3 []) [46]
    if sub1 ≠ none ∧ (strcmp_eq (sub1.getD []) str_txt = true
        ∨ strcmp_eq (sub1.getD []) str_c = true ∨ strcmp_eq (sub1.getD []) str_sh = true) then
      let e2 := { e1 with secret_fname := argv.getD 3 [], extn_secret_file := sub1.getD [] }
      match argv[4]? with
      | some argv4 =>
        let sub2 := strstr argv4 str_bmp
        if sub2 ≠ none ∧ strcmp_eq (sub2.getD []) str_bmp = true then
          (Status.e_success, { e2 with stego_image_fname := argv4 })
        else (Status.e_failure, e2)
      | none => (Status.e_success, { e2 with stego_image_fname := str_stego_bmp })
    else (Status.e_failure, e1)
  else (Status.e_failure, encInfo)

/-! ## Further concrete inputs -/

/-- The command line `prog -e x.bmp.bmp s.txt`. -/
def argv_double_bmp : List (List Nat) :=
  [[112, 114, 111, 103], [45, 101], [120, 46, 98, 109, 112, 46, 98, 109, 112],
   [115, 46, 116, 120, 116]]

/-- The command line `prog -e a.bmp my.notes.txt`. -/
def argv_two_dots : List (List Nat) :=
  [[112, 114, 111, 103], [45, 101], [97, 46, 98, 109, 112],
   [109, 121, 46, 110, 111, 116, 101, 115, 46, 116, 120, 116]]

/-- The command line `prog -e a.bmp ./a.txt`. -/
def argv_dot_slash : List (List Nat) :=
  [[112, 114, 111, 103], [45, 101], [97, 46, 98, 109, 112],
   [46, 47, 97, 46, 116, 120, 116]]

/-- The command line `prog -e a.bmp s.txt`. -/
def argv_plain : List (List Nat) :=
  [[112, 114, 111, 103], [45, 101], [97, 46, 98, 109, 112], [115, 46, 116, 120, 116]]

/-- The encoder state of `demo_encInfo` with the name `x` for the secret file, a name
that `demo_fs` does not hold. -/
def missing_secret_encInfo : EncodeInfo := { demo_encInfo with secret_fname := [120] }

/-! ## Argument validation (decode.c) and observations on the encoder -/

/-- Positions of the source stream in `do_encoding` after each of the steps
`copy_bmp_header`, `encode_magic_string`, `encode_secret_file_extn_size`,
`encode_secret_file_extn`, `encode_secret_file_size` and `encode_secret_file_data`, run as
`do_encoding` runs them on the state `e1` that `check_capacity` hands over. -/
def source_positions (e1 : EncodeInfo) (junk : Nat → Nat) : List Nat :=
  let c := copy_bmp_header e1.fptr_src_image e1.fptr_stego_image junk
  let e3 := (encode_magic_string MAGIC_STRING
    { e1 with fptr_src_image := c.2.1, fptr_stego_image := c.2.2 } junk).2
  let e4 := (encode_secret_file_extn_size (to_int32 (strlen e3.extn_secret_file)) e3 junk).2
  let e5 := (encode_secret_file_extn e4.extn_secret_file e4 junk).2
  let e6 := (encode_secret_file_size e5.secret_file_size e5 junk).2
  let e7 := (encode_secret_file_data e6 junk).2
  [c.2.1.pos, e3.fptr_src_image.pos, e4.fptr_src_image.pos, e5.fptr_src_image.pos,
    e6.fptr_src_image.pos, e7.fptr_src_image.pos]

/-- The command line `prog -d o.bmp`. -/
def argv_decode_default : List (List Nat) :=
  [[112, 114, 111, 103], [45, 100], [111, 46, 98, 109, 112]]

/-- The command line `prog -e a.bmp s.txt o.bmp`. -/
def argv_encode_named : List (List Nat) :=
  [[112, 114, 111, 103], [45, 101], [97, 46, 98, 109, 112], [115, 46, 116, 120, 116],
   [111, 46, 98, 109, 112]]

/-! ## The decoder within the bounds of its arrays -/

/-- Function `decode_secret_file_extn` with the bounds of its two arrays.  The array `extn`
has `(extn_size + 1) % 2 ^ 32` elements, the sum being a `uint`, and the loop and the
terminator write its elements `0` to `extn_size`; `strcat` writes into the
`secret_output_fname_size` bytes of the name field.  `none` stands for a write outside one
of the two arrays, where the behaviour of the program is undefined. -/
def decode_secret_file_extn_checked (fs : FileSys) (decInfo : DecodeInfo) (junk : Nat → Nat) :
    Option (Status × DecodeInfo) :=
  let n := (decInfo.extn_size + 1) % 4294967296
  if n ≤ decInfo.extn_size then none
  else
    let r := (List.range decInfo.extn_size).foldl
      (fun (st : List Nat × List Nat × RFile) i =>
        let rd := fread st.2.1 8 st.2.2
        (st.1.set i (decode_bytes_from_lsb rd.1), rd.1, rd.2))
      (uninit junk n, uninit junk 8, decInfo.fptr_stego_image)
    let extn := r.1.set decInfo.extn_size 0
    match strcat secret_output_fname_size decInfo.secret_output_fname (cstr extn) with
    | none => none
    | some name =>
      let d1 := { decInfo with fptr_stego_image := r.2.2, secret_output_fname := name }
      match fopen_w fs d1.secret_output_fname with
      | none => some (Status.e_failure, { d1 with fptr_secret_output := null_w })
      | some out => some (Status.e_success, { d1 with fptr_secret_output := out })

/-- Function `do_decoding` with the bounds of the arrays of `decode_secret_file_extn`:
`none` when the run reaches a write outside one of them. -/
def do_decoding_checked (fs : FileSys) (decInfo : DecodeInfo) (junk : Nat → Nat) :
    Option (Status × DecodeInfo) :=
  match open_files_dec fs decInfo with
  | (Status.e_failure, d0) => some (Status.e_failure, d0)
  | (Status.e_success, d0) =>
  match skip_bmp_header d0 with
  | (Status.e_failure, d1) => some (Status.e_failure, d1)
  | (Status.e_success, d1) =>
  match decode_magic_string d1 junk with
  | (Status.e_failure, d2) => some (Status.e_failure, d2)
  | (Status.e_success, d2) =>
  match decode_secret_file_extn_size d2 junk with
  | (Status.e_failure, d3) => some (Status.e_failure, d3)
  | (Status.e_success, d3) =>
  match decode_secret_file_extn_checked fs d3 junk with
  | none => none
  | some (Status.e_failure, d4) => some (Status.e_failure, d4)
  | some (Status.e_success, d4) =>
  match decode_secret_file_size d4 junk with
  | (Status.e_failure, d5) => some (Status.e_failure, d5)
  | (Status.e_success, d5) =>
  match decode_secret_file_data d5 junk with
  | (Status.e_failure, d6) => some (Status.e_failure, d6)
  | (Status.e_success, d6) =>
    some (Status.e_success,
      { d6 with fptr_stego_image := fclose_r d6.fptr_stego_image,
                fptr_secret_output := fclose_w d6.fptr_secret_output })

set_option maxRecDepth 100000

theorem clear_lsb_byte : ∀ x < 256, int_to_char (char_to_int x &&& 4294967294) = x / 2 * 2 := by
  decide

theorem set_lsb_byte : ∀ x < 256,
    int_to_char (char_to_int (x / 2 * 2) ||| 1) = x / 2 * 2 + 1 := by
  decide

theorem lsb_test_byte (x : Nat) : char_to_int x &&& 1 ≠ 0 ↔ x % 2 = 1 := by
  unfold char_to_int
  split
  · rw [Nat.and_one_is_mod]; omega
  · rw [Nat.and_one_is_mod]; omega

theorem bit_test_byte : ∀ b < 256, ∀ i < 8,
    (char_to_int b &&& (1 <<< (7 - i)) ≠ 0 ↔ msb_bit 8 b i = 1) := by
  decide

theorem or_char_byte : ∀ ch < 256, ∀ i < 8,
    int_to_char (char_to_int ch ||| (1 <<< (7 - i))) = ch ||| 2 ^ (8 - 1 - i) := by
  decide

set_option maxRecDepth 512

theorem put_bit_mod (x bit : Nat) (h : bit ≤ 1) : put_bit x bit % 2 = bit := by
  unfold put_bit; omega

theorem put_bit_div (x bit : Nat) (h : bit ≤ 1) : put_bit x bit / 2 = x / 2 := by
  unfold put_bit; omega

theorem msb_bit_le (n v i : Nat) : msb_bit n v i ≤ 1 := by
  unfold msb_bit; omega

theorem getD_lt_of_bytes (w : List Nat) (hw : ∀ x ∈ w, x < 256) (i : Nat) : w.getD i 0 < 256 := by
  by_cases hi : i < w.length
  · rw [List.getD_eq_getElem _ _ hi]; exact hw _ (List.getElem_mem hi)
  · rw [List.getD_eq_default _ _ (by omega)]; omega

/-! ## Loops that update a buffer in place -/

theorem foldl_set_range (n : Nat) (step : List Nat → Nat → List Nat) (g : Nat → Nat → Nat)
    (buf : List Nat)
    (hstep : ∀ (b : List Nat) (i : Nat), i < n → i < b.length →
      b.getD i 0 = buf.getD i 0 → step b i = b.set i (g i (buf.getD i 0)))
    (k : Nat) (hk : k ≤ n) (hlen : k ≤ buf.length) :
    (List.range k).foldl step buf
      = (List.range k).map (fun i => g i (buf.getD i 0)) ++ buf.drop k := by
  induction k with
  | zero => simp
  | succ k ih =>
    have hk1 : k < buf.length := by omega
    rw [List.range_succ, List.foldl_append, ih (by omega) (by omega)]
    simp only [List.foldl_cons, List.foldl_nil, List.map_append, List.map_cons, List.map_nil]
    have hlenM : ((List.range k).map (fun i => g i (buf.getD i 0))).length = k := by simp
    rw [hstep _ k (by omega) (by simp; omega)
      (by rw [List.getD_append_right _ _ _ _ (by simp)]; simp [List.getD_eq_getElem?_getD])]
    rw [List.set_append, if_neg (by simp), hlenM, Nat.sub_self,
      List.drop_eq_getElem_cons hk1, List.set_cons_zero, List.getD_eq_getElem _ _ hk1]
    simp

theorem encode_step_eq (bit x : Nat) (b : List Nat) (i : Nat) (hi : i < b.length)
    (hx : b.getD i 0 = x) (hx256 : x < 256) (c : Prop) [Decidable c] (hc : c ↔ bit = 1)
    (hbit : bit ≤ 1) :
    (if c then (b.set i (int_to_char (char_to_int (b.getD i 0) &&& 4294967294))).set i
        (int_to_char (char_to_int ((b.set i (int_to_char
          (char_to_int (b.getD i 0) &&& 4294967294))).getD i 0) ||| 1))
      else b.set i (int_to_char (char_to_int (b.getD i 0) &&& 4294967294)))
      = b.set i (put_bit x bit) := by
  have hget : (b.set i (x / 2 * 2)).getD i 0 = x / 2 * 2 := by
    rw [List.getD_eq_getElem _ _ (by simpa using hi)]; simp
  rw [hx, clear_lsb_byte x hx256, hget, set_lsb_byte x hx256, List.set_set]
  unfold put_bit
  by_cases h : c
  · rw [if_pos h, hc.mp h]
  · rw [if_neg h]
    have : bit = 0 := by
      have := mt hc.mpr h
      omega
    rw [this]; rfl

theorem encode_byte_to_lsb_eq (data : Nat) (w : List Nat) (hd : data < 256)
    (hlen : 8 ≤ w.length) (hw : ∀ x ∈ w, x < 256) :
    (encode_byte_to_lsb data w).2 = pack_msb 8 data w := by
  unfold encode_byte_to_lsb pack_msb
  dsimp only
  refine foldl_set_range 8 _ (fun i x => put_bit x (msb_bit 8 data i)) w ?_ 8 (le_refl _) hlen
  intro b i hi hib hget
  exact encode_step_eq (msb_bit 8 data i) (w.getD i 0) b i hib hget
    (getD_lt_of_bytes w hw i) _ (bit_test_byte data hd i hi) (msb_bit_le _ _ _)

theorem and_two_pow_ne_zero (v j : Nat) : (v &&& 2 ^ j ≠ 0) ↔ v / 2 ^ j % 2 = 1 := by
  rw [Nat.and_two_pow, Nat.testBit_to_div_mod]
  by_cases h : v / 2 ^ j % 2 = 1
  · simp [h]
  · simp [h]

theorem encode_int_to_lsb_eq (data : Nat) (w : List Nat)
    (hlen : 32 ≤ w.length) (hw : ∀ x ∈ w, x < 256) :
    (encode_int_to_lsb data w).2 = pack_msb 32 data w := by
  unfold encode_int_to_lsb pack_msb
  dsimp only
  refine foldl_set_range 32 _ (fun i x => put_bit x (msb_bit 32 data i)) w ?_ 32 (le_refl _) hlen
  intro b i hi hib hget
  refine encode_step_eq (msb_bit 32 data i) (w.getD i 0) b i hib hget
    (getD_lt_of_bytes w hw i) _ ?_ (msb_bit_le _ _ _)
  have hpow : (1 <<< (31 - i)) % 4294967296 = 2 ^ (31 - i) := by
    rw [Nat.one_shiftLeft]
    exact Nat.mod_eq_of_lt (by
      calc 2 ^ (31 - i) ≤ 2 ^ 31 := Nat.pow_le_pow_right (by omega) (by omega)
        _ < 4294967296 := by norm_num)
  rw [hpow, and_two_pow_ne_zero]
  rfl

/-! ## Loops that assemble a value bit by bit -/

theorem msb_value_append (l : List Nat) (b : Nat) :
    msb_value (l ++ [b]) = 2 * msb_value l + b := by
  simp [msb_value, List.foldl_append]

theorem msb_value_lt (bit : Nat → Nat) (hbit : ∀ i, bit i ≤ 1) (k : Nat) :
    msb_value ((List.range k).map bit) < 2 ^ k := by
  induction k with
  | zero => simp [msb_value]
  | succ k ih =>
    rw [List.range_succ, List.map_append, List.map_cons, List.map_nil, msb_value_append,
      Nat.pow_succ]
    have := hbit k
    omega

theorem foldl_or_msb (n : Nat) (bit : Nat → Nat) (hbit : ∀ i, bit i ≤ 1)
    (step : Nat → Nat → Nat)
    (hstep : ∀ acc i, i < n → acc < 2 ^ n →
      step acc i = if bit i = 1 then acc ||| 2 ^ (n - 1 - i) else acc)
    (k : Nat) (hk : k ≤ n) :
    (List.range k).foldl step 0 = 2 ^ (n - k) * msb_value ((List.range k).map bit) := by
  induction k with
  | zero => simp [msb_value]
  | succ k ih =>
    have hlt := msb_value_lt bit hbit k
    have hsplit : 2 ^ (n - k) = 2 ^ (n - (k + 1)) * 2 := by
      rw [← Nat.pow_succ]; congr 1; omega
    have hacc : 2 ^ (n - k) * msb_value ((List.range k).map bit) < 2 ^ n := by
      have h2 : 2 ^ n = 2 ^ (n - k) * 2 ^ k := by
        rw [← Nat.pow_add]; congr 1; omega
      rw [h2]
      exact Nat.mul_lt_mul_of_pos_left hlt (Nat.two_pow_pos _)
    rw [List.range_succ, List.foldl_append, ih (by omega)]
    simp only [List.foldl_cons, List.foldl_nil, List.map_append, List.map_cons, List.map_nil]
    rw [hstep _ k (by omega) hacc, msb_value_append]
    have hexp : n - 1 - k = n - (k + 1) := by omega
    rw [hexp]
    by_cases hb : bit k = 1
    · rw [if_pos hb, hb, hsplit]
      have hor := Nat.mul_add_lt_is_or (i := n - (k + 1) + 1) (b := 2 ^ (n - (k + 1)))
        (by rw [Nat.pow_succ]; have := Nat.two_pow_pos (n - (k + 1)); omega)
        (msb_value ((List.range k).map bit))
      rw [Nat.pow_succ] at hor
      rw [← hor]
      ring
    · rw [if_neg hb]
      have h0 : bit k = 0 := by have := hbit k; omega
      rw [h0, hsplit]; ring

theorem msb_value_bits (n v : Nat) :
    msb_value ((List.range n).map (msb_bit n v)) = v % 2 ^ n := by
  induction n generalizing v with
  | zero => simp [msb_value, Nat.mod_one]
  | succ n ih =>
    rw [List.range_succ, List.map_append, List.map_cons, List.map_nil, msb_value_append]
    have hcongr : (List.range n).map (msb_bit (n + 1) v) = (List.range n).map (msb_bit n (v / 2)) := by
      apply List.map_congr_left
      intro i hi
      have hi2 : i < n := List.mem_range.mp hi
      unfold msb_bit
      have : n + 1 - 1 - i = (n - 1 - i) + 1 := by omega
      rw [this, Nat.pow_succ, Nat.mul_comm, ← Nat.div_div_eq_div_mul]
    rw [hcongr, ih]
    have hlast : msb_bit (n + 1) v n = v % 2 := by
      unfold msb_bit
      have : n + 1 - 1 - n = 0 := by omega
      rw [this]; simp
    rw [hlast, Nat.pow_succ]
    have := Nat.mod_mul (x := v) (a := 2) (b := 2 ^ n)
    rw [Nat.mul_comm (2 ^ n) 2]
    omega

/-- The bits a decoder reads from the window `w`: bit 0 of each of its first `n` bytes. -/
theorem decode_bytes_from_lsb_eq (w : List Nat) :
    decode_bytes_from_lsb w = msb_value ((List.range 8).map (fun i => w.getD i 0 % 2)) := by
  unfold decode_bytes_from_lsb
  have h := foldl_or_msb 8 (fun i => w.getD i 0 % 2) (fun i => by dsimp only; omega)
    (fun ch i => if char_to_int (w.getD i 0) &&& 1 ≠ 0
      then int_to_char (char_to_int ch ||| (1 <<< (7 - i))) else ch)
    (by
      intro acc i hi hacc
      dsimp only
      have hb := lsb_test_byte (w.getD i 0)
      by_cases hc : w.getD i 0 % 2 = 1
      · rw [if_pos (hb.mpr hc), if_pos hc, or_char_byte acc hacc i hi]
      · rw [if_neg (mt hb.mp hc), if_neg hc])
    8 (le_refl _)
  simpa using h

theorem decode_int_from_lsb_eq (w : List Nat) :
    decode_int_from_lsb w = msb_value ((List.range 32).map (fun i => w.getD i 0 % 2)) := by
  unfold decode_int_from_lsb
  have h := foldl_or_msb 32 (fun i => w.getD i 0 % 2) (fun i => by dsimp only; omega)
    (fun num i => if char_to_int (w.getD i 0) &&& 1 ≠ 0
      then num ||| ((1 <<< (31 - i)) % 4294967296) else num)
    (by
      intro acc i hi _
      dsimp only
      have hb := lsb_test_byte (w.getD i 0)
      have hpow : (1 <<< (31 - i)) % 4294967296 = 2 ^ (32 - 1 - i) := by
        rw [Nat.one_shiftLeft]
        exact Nat.mod_eq_of_lt (by
          calc 2 ^ (31 - i) ≤ 2 ^ 31 := Nat.pow_le_pow_right (by omega) (by omega)
            _ < 4294967296 := by norm_num)
      by_cases hc : w.getD i 0 % 2 = 1
      · rw [if_pos (hb.mpr hc), if_pos hc, hpow]
      · rw [if_neg (mt hb.mp hc), if_neg hc])
    32 (le_refl _)
  simpa using h

theorem pack_msb_getD (n v : Nat) (w : List Nat) (i : Nat) (hi : i < n) :
    (pack_msb n v w).getD i 0 = put_bit (w.getD i 0) (msb_bit n v i) := by
  unfold pack_msb
  rw [List.getD_append _ _ _ _ (by simpa using hi), List.getD_eq_getElem _ _ (by simpa using hi)]
  simp

theorem lsbs_pack_msb (n v : Nat) (w : List Nat) :
    (List.range n).map (fun i => (pack_msb n v w).getD i 0 % 2)
      = (List.range n).map (msb_bit n v) := by
  apply List.map_congr_left
  intro i hi
  rw [pack_msb_getD n v w i (List.mem_range.mp hi), put_bit_mod _ _ (msb_bit_le _ _ _)]

theorem decode_pack_byte (b : Nat) (w : List Nat) (hb : b < 256) :
    decode_bytes_from_lsb (pack_msb 8 b w) = b := by
  rw [decode_bytes_from_lsb_eq, lsbs_pack_msb, msb_value_bits]
  exact Nat.mod_eq_of_lt hb

theorem decode_pack_int (v : Nat) (w : List Nat) (hv : v < 4294967296) :
    decode_int_from_lsb (pack_msb 32 v w) = v := by
  rw [decode_int_from_lsb_eq, lsbs_pack_msb, msb_value_bits]
  exact Nat.mod_eq_of_lt hv

/-! ## Streams -/

theorem window_length (s : List Nat) (off n : Nat) (h : off + n ≤ s.length) :
    (window s off n).length = n := by
  unfold window; simp; omega

theorem window_bytes (s : List Nat) (hs : ∀ x ∈ s, x < 256) (off n : Nat) :
    ∀ x ∈ window s off n, x < 256 := by
  intro x hx
  exact hs x (List.mem_of_mem_drop (List.mem_of_mem_take hx))

theorem pack_msb_length (n v : Nat) (w : List Nat) (h : n ≤ w.length) :
    (pack_msb n v w).length = w.length := by
  unfold pack_msb; simp; omega

theorem pack_bytes_succ (data s : List Nat) (q k : Nat) :
    pack_bytes data s q (k + 1)
      = pack_bytes data s q k ++ pack_msb 8 (data.getD k 0) (window s (q + 8 * k) 8) := by
  unfold pack_bytes
  rw [List.range_succ, List.flatMap_append]
  simp

theorem pack_bytes_length (data s : List Nat) (q k : Nat) (h : q + 8 * k ≤ s.length) :
    (pack_bytes data s q k).length = 8 * k := by
  induction k with
  | zero => simp [pack_bytes]
  | succ k ih =>
    rw [pack_bytes_succ, List.length_append, ih (by omega),
      pack_msb_length _ _ _ (by rw [window_length _ _ _ (by omega)]),
      window_length _ _ _ (by omega)]
    omega

theorem fread_full (buf : List Nat) (n : Nat) (f : RFile) (hbuf : buf.length ≤ n)
    (h : f.pos + n ≤ f.data.length) :
    fread buf n f = (window f.data f.pos n, { f with pos := f.pos + n }) := by
  have hlen : ((f.data.drop f.pos).take n).length = n := window_length _ _ _ h
  unfold fread
  simp only [hlen]
  rw [List.drop_eq_nil_of_le hbuf, List.append_nil]
  rfl

theorem uninit_length (junk : Nat → Nat) (n : Nat) : (uninit junk n).length = n := by
  simp [uninit]

theorem encode_data_loop (data : List Nat) (junk : Nat → Nat) (e : EncodeInfo)
    (hs : ∀ x ∈ e.fptr_src_image.data, x < 256) (hd : ∀ x ∈ data, x < 256)
    (k : Nat) (hk : e.fptr_src_image.pos + 8 * k ≤ e.fptr_src_image.data.length) :
    ∃ buf : List Nat, buf.length = 8 ∧
    (List.range k).foldl
      (fun (st : List Nat × EncodeInfo) i =>
        let rd := fread st.1 8 st.2.fptr_src_image
        let buffer := (encode_byte_to_lsb (data.getD i 0) rd.1).2
        (buffer, { st.2 with fptr_src_image := rd.2,
                             fptr_stego_image := fwrite buffer 8 st.2.fptr_stego_image }))
      (uninit junk 8, e)
      = (buf, { e with
          fptr_src_image := { e.fptr_src_image with pos := e.fptr_src_image.pos + 8 * k },
          fptr_stego_image := { e.fptr_stego_image with
            data := e.fptr_stego_image.data
              ++ pack_bytes data e.fptr_src_image.data e.fptr_src_image.pos k } }) := by
  induction k with
  | zero =>
    exact ⟨uninit junk 8, uninit_length junk 8, by simp [pack_bytes]⟩
  | succ k ih =>
    obtain ⟨buf, hbuf, hfold⟩ := ih (by omega)
    have hwl : (window e.fptr_src_image.data (e.fptr_src_image.pos + 8 * k) 8).length = 8 :=
      window_length _ _ _ (by omega)
    refine ⟨pack_msb 8 (data.getD k 0)
      (window e.fptr_src_image.data (e.fptr_src_image.pos + 8 * k) 8), ?_, ?_⟩
    · rw [pack_msb_length _ _ _ (by omega), hwl]
    · rw [List.range_succ, List.foldl_append, hfold]
      simp only [List.foldl_cons, List.foldl_nil]
      rw [fread_full buf 8 _ (by omega) (by simp only []; omega)]
      simp only []
      rw [encode_byte_to_lsb_eq _ _ (getD_lt_of_bytes data hd k) (by omega)
        (window_bytes _ hs _ _)]
      simp only [fwrite, pack_bytes_succ, List.append_assoc]
      rw [List.take_of_length_le (by rw [pack_msb_length _ _ _ (by omega), hwl])]
      congr 3

theorem encode_data_to_image_eq (data : List Nat) (size : Nat) (junk : Nat → Nat)
    (e : EncodeInfo)
    (hs : ∀ x ∈ e.fptr_src_image.data, x < 256) (hd : ∀ x ∈ data, x < 256)
    (hk : e.fptr_src_image.pos + 8 * int_loop_count size ≤ e.fptr_src_image.data.length) :
    encode_data_to_image data size e junk
      = (Status.e_success, { e with
          fptr_src_image :=
            { e.fptr_src_image with pos := e.fptr_src_image.pos + 8 * int_loop_count size },
          fptr_stego_image := { e.fptr_stego_image with
            data := e.fptr_stego_image.data
              ++ pack_bytes data e.fptr_src_image.data e.fptr_src_image.pos
                  (int_loop_count size) } }) := by
  obtain ⟨buf, _, hfold⟩ := encode_data_loop data junk e hs hd (int_loop_count size) hk
  unfold encode_data_to_image
  simp only []
  rw [hfold]

theorem copy_remaining_loop_eq (fuel : Nat) (src : RFile) (dest : WFile)
    (hpos : src.pos ≤ src.data.length) (hfuel : src.data.length - src.pos < fuel) :
    copy_remaining_loop fuel src dest
      = ({ src with pos := src.data.length },
         { dest with data := dest.data ++ src.data.drop src.pos }) := by
  induction fuel generalizing src dest with
  | zero => omega
  | succ fuel ih =>
    unfold copy_remaining_loop fgetc
    by_cases hlt : src.pos < src.data.length
    · rw [List.drop_eq_getElem_cons hlt]
      simp only []
      rw [ih _ _ (by simp only []; omega) (by simp only []; omega)]
      simp only [fputc, List.append_assoc, List.singleton_append]
    · have heq : src.pos = src.data.length := by omega
      rw [List.drop_eq_nil_of_le (by omega)]
      simp only [List.append_nil]
      cases src; cases dest
      simp only [] at heq
      simp [heq]

theorem copy_remaining_img_data_eq (src : RFile) (dest : WFile)
    (hpos : src.pos ≤ src.data.length) :
    copy_remaining_img_data src dest
      = (Status.e_success, { src with pos := src.data.length },
         { dest with data := dest.data ++ src.data.drop src.pos }) := by
  unfold copy_remaining_img_data
  simp only []
  rw [copy_remaining_loop_eq _ src dest hpos (by omega)]

theorem copy_bmp_header_eq (src : RFile) (dest : WFile) (junk : Nat → Nat)
    (hlen : 54 ≤ src.data.length) :
    copy_bmp_header src dest junk
      = (Status.e_success, { src with pos := 54 },
         { dest with data := dest.data ++ window src.data 0 54 }) := by
  unfold copy_bmp_header
  simp only []
  rw [fread_full _ 54 _ (by rw [uninit_length]) (by simp only [rewind]; omega)]
  simp only [rewind, fwrite, Nat.zero_add]
  rw [List.take_of_length_le (by rw [window_length _ _ _ (by omega)])]

theorem get_image_size_for_bmp_eq (f : RFile) (junk : Nat → Nat)
    (hlen : 26 ≤ f.data.length) :
    get_image_size_for_bmp f junk = (bmp_capacity f.data, { f with pos := 26 }) := by
  unfold get_image_size_for_bmp bmp_capacity
  simp only []
  rw [fread_full _ 4 _ (by rw [uninit_length]) (by simp only [fseek_set]; omega)]
  simp only []
  rw [fread_full _ 4 _ (by rw [uninit_length]) (by simp only [fseek_set]; omega)]
  simp only [fseek_set]

theorem to_int32_lt (v : Nat) : to_int32 v < 4294967296 := by
  unfold to_int32; omega

theorem to_int32_le (v : Nat) : to_int32 v ≤ v := by
  unfold to_int32; exact Nat.mod_le _ _

theorem to_int32_idem (v : Nat) : to_int32 (to_int32 v) = to_int32 v := by
  unfold to_int32; omega

theorem int_loop_count_le (v : Nat) : int_loop_count v ≤ v := by
  unfold int_loop_count; split <;> omega

theorem encode_secret_file_extn_size_eq (size : Nat) (junk : Nat → Nat) (e : EncodeInfo)
    (hs : ∀ x ∈ e.fptr_src_image.data, x < 256)
    (hk : e.fptr_src_image.pos + 32 ≤ e.fptr_src_image.data.length) :
    encode_secret_file_extn_size size e junk
      = (Status.e_success, { e with
          fptr_src_image := { e.fptr_src_image with pos := e.fptr_src_image.pos + 32 },
          fptr_stego_image := { e.fptr_stego_image with
            data := e.fptr_stego_image.data
              ++ pack_msb 32 size (window e.fptr_src_image.data e.fptr_src_image.pos 32) } }) := by
  have hwl := window_length e.fptr_src_image.data e.fptr_src_image.pos 32 hk
  unfold encode_secret_file_extn_size
  simp only []
  rw [fread_full _ 32 _ (by rw [uninit_length]) hk]
  simp only []
  rw [encode_int_to_lsb_eq _ _ (by omega) (window_bytes _ hs _ _)]
  simp only [fwrite]
  rw [List.take_of_length_le (by rw [pack_msb_length _ _ _ (by omega), hwl])]

theorem encode_secret_file_size_eq (file_size : Nat) (junk : Nat → Nat) (e : EncodeInfo)
    (hs : ∀ x ∈ e.fptr_src_image.data, x < 256)
    (hk : e.fptr_src_image.pos + 32 ≤ e.fptr_src_image.data.length) :
    encode_secret_file_size file_size e junk
      = (Status.e_success, { e with
          fptr_src_image := { e.fptr_src_image with pos := e.fptr_src_image.pos + 32 },
          fptr_stego_image := { e.fptr_stego_image with
            data := e.fptr_stego_image.data
              ++ pack_msb 32 (to_int32 file_size)
                  (window e.fptr_src_image.data e.fptr_src_image.pos 32) } }) := by
  have hwl := window_length e.fptr_src_image.data e.fptr_src_image.pos 32 hk
  unfold encode_secret_file_size
  simp only []
  rw [fread_full _ 32 _ (by rw [uninit_length]) hk]
  simp only []
  rw [encode_int_to_lsb_eq _ _ (by omega) (window_bytes _ hs _ _)]
  simp only [fwrite]
  rw [List.take_of_length_le (by rw [pack_msb_length _ _ _ (by omega), hwl])]

theorem encode_magic_string_eq (magic_string : List Nat) (junk : Nat → Nat) (e : EncodeInfo)
    (hs : ∀ x ∈ e.fptr_src_image.data, x < 256) (hd : ∀ x ∈ magic_string, x < 256)
    (hk : e.fptr_src_image.pos + 8 * int_loop_count (to_int32 (strlen magic_string))
      ≤ e.fptr_src_image.data.length) :
    encode_magic_string magic_string e junk
      = (Status.e_success, { e with
          fptr_src_image := { e.fptr_src_image with
            pos := e.fptr_src_image.pos + 8 * int_loop_count (to_int32 (strlen magic_string)) },
          fptr_stego_image := { e.fptr_stego_image with
            data := e.fptr_stego_image.data
              ++ pack_bytes magic_string e.fptr_src_image.data e.fptr_src_image.pos
                  (int_loop_count (to_int32 (strlen magic_string))) } }) := by
  unfold encode_magic_string
  rw [encode_data_to_image_eq _ _ _ _ hs hd hk]
  simp only [if_true]

theorem encode_secret_file_extn_eq (file_extn : List Nat) (junk : Nat → Nat) (e : EncodeInfo)
    (hs : ∀ x ∈ e.fptr_src_image.data, x < 256) (hd : ∀ x ∈ file_extn, x < 256)
    (hk : e.fptr_src_image.pos + 8 * int_loop_count (to_int32 (strlen file_extn))
      ≤ e.fptr_src_image.data.length) :
    encode_secret_file_extn file_extn e junk
      = (Status.e_success, { e with
          fptr_src_image := { e.fptr_src_image with
            pos := e.fptr_src_image.pos + 8 * int_loop_count (to_int32 (strlen file_extn)) },
          fptr_stego_image := { e.fptr_stego_image with
            data := e.fptr_stego_image.data
              ++ pack_bytes file_extn e.fptr_src_image.data e.fptr_src_image.pos
                  (int_loop_count (to_int32 (strlen file_extn))) } }) := by
  unfold encode_secret_file_extn
  rw [encode_data_to_image_eq _ _ _ _ hs hd hk]
  simp only [if_true]

theorem encode_secret_file_data_eq (junk : Nat → Nat) (e : EncodeInfo)
    (hs : ∀ x ∈ e.fptr_src_image.data, x < 256) (hp : ∀ x ∈ e.fptr_secret.data, x < 256)
    (hsz : e.fptr_secret.pos + e.secret_file_size ≤ e.fptr_secret.data.length)
    (hk : e.fptr_src_image.pos + 8 * int_loop_count (to_int32 e.secret_file_size)
      ≤ e.fptr_src_image.data.length) :
    encode_secret_file_data e junk
      = (Status.e_success, { e with
          fptr_secret := { e.fptr_secret with pos := e.fptr_secret.pos + e.secret_file_size },
          fptr_src_image := { e.fptr_src_image with
            pos := e.fptr_src_image.pos + 8 * int_loop_count (to_int32 e.secret_file_size) },
          fptr_stego_image := { e.fptr_stego_image with
            data := e.fptr_stego_image.data
              ++ pack_bytes (window e.fptr_secret.data e.fptr_secret.pos e.secret_file_size)
                  e.fptr_src_image.data e.fptr_src_image.pos
                  (int_loop_count (to_int32 e.secret_file_size)) } }) := by
  unfold encode_secret_file_data
  rw [fread_full _ _ _ (by rw [uninit_length]) hsz]
  simp only []
  rw [encode_data_to_image_eq _ _ _ _ (by simpa using hs) (window_bytes _ hp _ _)
    (by simpa using hk)]
  simp only [if_true]

theorem do_encoding_eq (fs : FileSys) (encInfo : EncodeInfo) (junk : Nat → Nat)
    (s p : List Nat)
    (hsrc : fs.readable encInfo.src_image_fname = some s)
    (hsec : fs.readable encInfo.secret_fname = some p)
    (hout : fs.writable encInfo.stego_image_fname = true)
    (hs : ∀ x ∈ s, x < 256) (hp : ∀ x ∈ p, x < 256)
    (hext : ∀ x ∈ encInfo.extn_secret_file, x < 256)
    (hS : to_int32 p.length ≠ 0)
    (hcap : bmp_capacity s
      > Encoding_things 2 (to_int32 (strlen encInfo.extn_secret_file)) (to_int32 p.length))
    (hlen : 134 + 8 * int_loop_count (to_int32 (strlen encInfo.extn_secret_file))
      + 8 * int_loop_count (to_int32 p.length) ≤ s.length) :
    do_encoding fs encInfo junk
      = (Status.e_success, { encInfo with
          fptr_src_image := { data := s, pos := s.length, mode := Mode.closed },
          image_capacity := bmp_capacity s,
          fptr_secret := { data := p, pos := to_int32 p.length, mode := Mode.closed },
          secret_file_size := to_int32 p.length,
          fptr_stego_image :=
            { data := frame_stream s encInfo.extn_secret_file p, mode := Mode.closed } }) := by
  obtain ⟨n1, f1, c1, n2, f2, sz, ext, n3, f3⟩ := encInfo
  simp only [] at hsrc hsec hout hext hcap hlen
  have hSle := to_int32_le p.length
  have hnp := int_loop_count_le (to_int32 p.length)
  have hm : to_int32 (strlen MAGIC_STRING) = 2 := by decide
  have hc2 : int_loop_count 2 = 2 := by decide
  unfold do_encoding open_files fopen_r fopen_w
  simp only [hsrc, hsec, hout, if_true]
  unfold check_capacity get_file_size
  simp only [rewind, if_neg hS, to_int32_idem]
  rw [get_image_size_for_bmp_eq _ _ (by simp only []; omega)]
  simp only [hm, if_pos hcap, if_true]
  rw [copy_bmp_header_eq _ _ _ (by simp only []; omega)]
  simp only [List.nil_append]
  rw [encode_magic_string_eq _ _ _ (by simpa using hs) (by decide)
    (by simp only [hm, hc2]; omega)]
  simp only [hm, hc2]
  rw [encode_secret_file_extn_size_eq _ _ _ (by simpa using hs) (by simp only []; omega)]
  simp only []
  rw [encode_secret_file_extn_eq _ _ _ (by simpa using hs) (by simpa using hext)
    (by simp only []; omega)]
  simp only []
  rw [encode_secret_file_size_eq _ _ _ (by simpa using hs) (by simp only []; omega)]
  simp only []
  rw [encode_secret_file_data_eq _ _ (by simpa using hs) (by simpa using hp)
    (by simp only []; omega) (by simp only [to_int32_idem]; omega)]
  simp only []
  rw [copy_remaining_img_data_eq _ _ (by simp only [to_int32_idem]; omega)]
  simp only [fclose_r, fclose_w, to_int32_idem, frame_stream, window, List.drop_zero,
    List.append_assoc, Nat.zero_add]
  ring_nf

/-! ## The decoder, step by step -/

theorem unpack_bytes_succ (t : List Nat) (q k : Nat) :
    unpack_bytes t q (k + 1)
      = unpack_bytes t q k ++ [decode_bytes_from_lsb (window t (q + 8 * k) 8)] := by
  unfold unpack_bytes
  rw [List.range_succ, List.map_append]
  rfl

theorem unpack_bytes_length (t : List Nat) (q k : Nat) : (unpack_bytes t q k).length = k := by
  simp [unpack_bytes]

theorem decode_array_loop (junk : Nat → Nat) (arr0 : List Nat) (f : RFile) (k : Nat)
    (harr : k ≤ arr0.length) (hk : f.pos + 8 * k ≤ f.data.length) :
    ∃ buf : List Nat, buf.length = 8 ∧
    (List.range k).foldl
      (fun (st : List Nat × List Nat × RFile) i =>
        let rd := fread st.2.1 8 st.2.2
        (st.1.set i (decode_bytes_from_lsb rd.1), rd.1, rd.2))
      (arr0, uninit junk 8, f)
      = (unpack_bytes f.data f.pos k ++ arr0.drop k, buf, { f with pos := f.pos + 8 * k }) := by
  induction k with
  | zero => exact ⟨uninit junk 8, uninit_length junk 8, by simp [unpack_bytes]⟩
  | succ k ih =>
    obtain ⟨buf, hbuf, hfold⟩ := ih (by omega) (by omega)
    refine ⟨window f.data (f.pos + 8 * k) 8, window_length _ _ _ (by omega), ?_⟩
    rw [List.range_succ, List.foldl_append, hfold]
    simp only [List.foldl_cons, List.foldl_nil]
    rw [fread_full buf 8 _ (by omega) (by simp only []; omega)]
    simp only []
    rw [List.set_append, if_neg (by rw [unpack_bytes_length]; omega), unpack_bytes_length,
      Nat.sub_self, List.drop_eq_getElem_cons (by omega : k < arr0.length), List.set_cons_zero,
      unpack_bytes_succ]
    simp only [List.append_assoc, List.singleton_append]
    congr 3

theorem set_at_length (A : List Nat) (x v : Nat) (r : List Nat) (k : Nat) (hk : A.length = k) :
    (A ++ x :: r).set k v = A ++ v :: r := by
  subst hk
  rw [List.set_append, if_neg (by omega), Nat.sub_self, List.set_cons_zero]

theorem uninit_drop_last (junk : Nat → Nat) (n : Nat) :
    (uninit junk (n + 1)).drop n = [junk n % 256] := by
  unfold uninit
  rw [List.range_succ, List.map_append, List.drop_left' (by simp)]
  rfl

theorem cstr_magic (l : List Nat) (hl : l.length = 2) :
    strcmp_eq MAGIC_STRING (l ++ [0]) = decide (l = MAGIC_STRING) := by
  match l, hl with
  | [a, b], _ =>
    unfold strcmp_eq cstr MAGIC_STRING
    by_cases ha : a = 0
    · subst ha; simp [List.takeWhile]
    · have ha1 : (a != 0) = true := by simpa using ha
      by_cases hb : b = 0
      · subst hb; simp [List.takeWhile, ha1]
      · have hb1 : (b != 0) = true := by simpa using hb
        simp [List.takeWhile, ha1, hb1, eq_comm]

theorem decode_magic_string_eq (d : DecodeInfo) (junk : Nat → Nat)
    (hk : d.fptr_stego_image.pos + 16 ≤ d.fptr_stego_image.data.length) :
    decode_magic_string d junk
      = (if unpack_bytes d.fptr_stego_image.data d.fptr_stego_image.pos 2 = MAGIC_STRING
          then Status.e_success else Status.e_failure,
         { d with fptr_stego_image :=
            { d.fptr_stego_image with pos := d.fptr_stego_image.pos + 16 } }) := by
  obtain ⟨buf, _, hfold⟩ := decode_array_loop junk (uninit junk 3) d.fptr_stego_image 2
    (by rw [uninit_length]; omega) (by omega)
  unfold decode_magic_string
  simp only []
  rw [hfold]
  simp only []
  rw [uninit_drop_last junk 2, set_at_length _ _ _ _ _ (unpack_bytes_length _ _ _),
    cstr_magic _ (unpack_bytes_length _ _ _)]
  by_cases h : unpack_bytes d.fptr_stego_image.data d.fptr_stego_image.pos 2 = MAGIC_STRING
  · simp [h]
  · simp [h]

theorem window_mid (pre X post : List Nat) (q o n : Nat) (hpre : pre.length + o = q)
    (h : o + n ≤ X.length) :
    window (pre ++ X ++ post) q n = window X o n := by
  subst hpre
  unfold window
  rw [List.append_assoc, List.drop_append, List.drop_append_of_le_length (by omega),
    List.take_append_of_le_length (by rw [List.length_drop]; omega)]

theorem window_whole (X : List Nat) (n : Nat) (h : X.length = n) : window X 0 n = X := by
  unfold window
  rw [List.drop_zero, List.take_of_length_le (by omega)]

theorem unpack_bytes_mid (pre X post : List Nat) (q k : Nat) (hpre : pre.length = q)
    (h : 8 * k ≤ X.length) :
    unpack_bytes (pre ++ X ++ post) q k = unpack_bytes X 0 k := by
  unfold unpack_bytes
  apply List.map_congr_left
  intro j hj
  have hj2 : j < k := List.mem_range.mp hj
  rw [window_mid pre X post (q + 8 * j) (0 + 8 * j) 8 (by omega) (by omega)]

theorem window_pack_bytes (data s : List Nat) (q k j : Nat) (hj : j < k)
    (hlen : q + 8 * k ≤ s.length) :
    window (pack_bytes data s q k) (8 * j) 8
      = pack_msb 8 (data.getD j 0) (window s (q + 8 * j) 8) := by
  induction k with
  | zero => omega
  | succ k ih =>
    have hl := pack_bytes_length data s q k (by omega)
    have hwl : (pack_msb 8 (data.getD k 0) (window s (q + 8 * k) 8)).length = 8 := by
      rw [pack_msb_length _ _ _ (by rw [window_length _ _ _ (by omega)]),
        window_length _ _ _ (by omega)]
    rw [pack_bytes_succ]
    by_cases hjk : j < k
    · have h := window_mid [] (pack_bytes data s q k)
        (pack_msb 8 (data.getD k 0) (window s (q + 8 * k) 8)) (8 * j) (8 * j) 8 (by simp)
        (by omega)
      rw [List.nil_append] at h
      rw [h, ih hjk (by omega)]
    · have hjk2 : j = k := by omega
      subst hjk2
      have h := window_mid (pack_bytes data s q j)
        (pack_msb 8 (data.getD j 0) (window s (q + 8 * j) 8)) [] (8 * j) 0 8 (by omega)
        (by omega)
      rw [List.append_nil] at h
      rw [h, window_whole _ _ hwl]

theorem map_getD_range (l : List Nat) : (List.range l.length).map (fun j => l.getD j 0) = l := by
  apply List.ext_getElem (by simp)
  intro n h1 h2
  rw [List.getElem_map, List.getElem_range, List.getD_eq_getElem _ _ h2]

theorem unpack_pack_bytes (data s : List Nat) (q : Nat) (hd : ∀ x ∈ data, x < 256)
    (hlen : q + 8 * data.length ≤ s.length) :
    unpack_bytes (pack_bytes data s q data.length) 0 data.length = data := by
  have h : unpack_bytes (pack_bytes data s q data.length) 0 data.length
      = (List.range data.length).map (fun j => data.getD j 0) := by
    unfold unpack_bytes
    apply List.map_congr_left
    intro j hj
    have hj2 : j < data.length := List.mem_range.mp hj
    rw [Nat.zero_add, window_pack_bytes data s q data.length j hj2 hlen,
      decode_pack_byte _ _ (getD_lt_of_bytes data hd j)]
  rw [h, map_getD_range]

theorem frame_stream_eq (s ext p : List Nat) (hE : ext.length < 2147483648)
    (hP : p.length < 2147483648) :
    frame_stream s ext p
      = window s 0 54 ++ pack_bytes MAGIC_STRING s 54 2
        ++ pack_msb 32 ext.length (window s 70 32)
        ++ pack_bytes ext s 102 ext.length
        ++ pack_msb 32 p.length (window s (102 + 8 * ext.length) 32)
        ++ pack_bytes p s (134 + 8 * ext.length) p.length
        ++ s.drop (134 + 8 * ext.length + 8 * p.length) := by
  have h1 : to_int32 (strlen ext) = ext.length := by
    unfold to_int32 strlen; omega
  have h2 : to_int32 p.length = p.length := by
    unfold to_int32; omega
  have h3 : int_loop_count ext.length = ext.length := by
    unfold int_loop_count; rw [if_pos hE]
  have h4 : int_loop_count p.length = p.length := by
    unfold int_loop_count; rw [if_pos hP]
  unfold frame_stream
  simp only [h1, h2, h3, h4, List.take_length]

theorem frame_stream_fields (s ext p : List Nat) (hE : ext.length < 2147483648)
    (hP : p.length < 2147483648) (hext : ∀ x ∈ ext, x < 256)
    (hp : ∀ x ∈ p, x < 256) (hlen : 134 + 8 * ext.length + 8 * p.length ≤ s.length) :
    unpack_bytes (frame_stream s ext p) 54 2 = MAGIC_STRING
    ∧ decode_int_from_lsb (window (frame_stream s ext p) 70 32) = ext.length
    ∧ unpack_bytes (frame_stream s ext p) 102 ext.length = ext
    ∧ decode_int_from_lsb (window (frame_stream s ext p) (102 + 8 * ext.length) 32) = p.length
    ∧ unpack_bytes (frame_stream s ext p) (134 + 8 * ext.length) p.length = p := by
  have l0 : (window s 0 54).length = 54 := window_length _ _ _ (by omega)
  have l1 : (pack_bytes MAGIC_STRING s 54 2).length = 16 := by
    rw [pack_bytes_length _ _ _ _ (by omega)]
  have w2 : (window s 70 32).length = 32 := window_length _ _ _ (by omega)
  have l2 : (pack_msb 32 ext.length (window s 70 32)).length = 32 := by
    rw [pack_msb_length _ _ _ (by omega), w2]
  have l3 : (pack_bytes ext s 102 ext.length).length = 8 * ext.length :=
    pack_bytes_length _ _ _ _ (by omega)
  have w4 : (window s (102 + 8 * ext.length) 32).length = 32 := window_length _ _ _ (by omega)
  have l4 : (pack_msb 32 p.length (window s (102 + 8 * ext.length) 32)).length = 32 := by
    rw [pack_msb_length _ _ _ (by omega), w4]
  have l5 : (pack_bytes p s (134 + 8 * ext.length) p.length).length = 8 * p.length :=
    pack_bytes_length _ _ _ _ (by omega)
  rw [frame_stream_eq s ext p hE hP]
  refine ⟨?_, ?_, ?_, ?_, ?_⟩
  · have hT : ∀ (A0 A1 A2 A3 A4 A5 A6 : List Nat),
        A0 ++ A1 ++ A2 ++ A3 ++ A4 ++ A5 ++ A6 = A0 ++ A1 ++ (A2 ++ A3 ++ A4 ++ A5 ++ A6) := by
      intros; simp only [List.append_assoc]
    rw [hT, unpack_bytes_mid _ _ _ 54 2 l0 (by omega)]
    exact unpack_pack_bytes MAGIC_STRING s 54 (by decide) (by
      have : MAGIC_STRING.length = 2 := rfl
      omega)
  · have hT : ∀ (A0 A1 A2 A3 A4 A5 A6 : List Nat),
        A0 ++ A1 ++ A2 ++ A3 ++ A4 ++ A5 ++ A6 = (A0 ++ A1) ++ A2 ++ (A3 ++ A4 ++ A5 ++ A6) := by
      intros; simp only [List.append_assoc]
    rw [hT, window_mid _ _ _ 70 0 32 (by rw [List.length_append]; omega) (by omega),
      window_whole _ _ l2]
    exact decode_pack_int _ _ (by omega)
  · have hT : ∀ (A0 A1 A2 A3 A4 A5 A6 : List Nat),
        A0 ++ A1 ++ A2 ++ A3 ++ A4 ++ A5 ++ A6 = (A0 ++ A1 ++ A2) ++ A3 ++ (A4 ++ A5 ++ A6) := by
      intros; simp only [List.append_assoc]
    rw [hT, unpack_bytes_mid _ _ _ 102 _ (by simp only [List.length_append]; omega) (by omega)]
    exact unpack_pack_bytes ext s 102 hext (by omega)
  · have hT : ∀ (A0 A1 A2 A3 A4 A5 A6 : List Nat),
        A0 ++ A1 ++ A2 ++ A3 ++ A4 ++ A5 ++ A6 = (A0 ++ A1 ++ A2 ++ A3) ++ A4 ++ (A5 ++ A6) := by
      intros; simp only [List.append_assoc]
    rw [hT, window_mid _ _ _ (102 + 8 * ext.length) 0 32
      (by simp only [List.length_append]; omega) (by omega), window_whole _ _ l4]
    exact decode_pack_int _ _ (by omega)
  · rw [unpack_bytes_mid _ _ _ (134 + 8 * ext.length) _
      (by simp only [List.length_append]; omega) (by omega)]
    exact unpack_pack_bytes p s (134 + 8 * ext.length) hp (by omega)

theorem frame_stream_length (s ext p : List Nat)
    (hlen : 134 + 8 * int_loop_count (to_int32 (strlen ext))
      + 8 * int_loop_count (to_int32 p.length) ≤ s.length) :
    (frame_stream s ext p).length = s.length := by
  unfold frame_stream
  simp only [List.length_append, List.length_drop]
  rw [window_length _ _ _ (by omega), pack_bytes_length _ _ _ _ (by omega),
    pack_msb_length _ _ _ (by rw [window_length _ _ _ (by omega)]),
    window_length _ _ _ (by omega), pack_bytes_length _ _ _ _ (by omega),
    pack_msb_length _ _ _ (by rw [window_length _ _ _ (by omega)]),
    window_length _ _ _ (by omega), pack_bytes_length _ _ _ _ (by omega)]
  omega

/-! ## The decoder as a whole -/

theorem do_decoding_marker_mismatch (fs : FileSys) (decInfo : DecodeInfo) (junk : Nat → Nat)
    (t : List Nat)
    (hst : fs.readable decInfo.stego_image_fname = some t)
    (hlen : 70 ≤ t.length)
    (hm : unpack_bytes t 54 2 ≠ MAGIC_STRING) :
    do_decoding fs decInfo junk
      = (Status.e_failure, { decInfo with
          fptr_stego_image := { data := t, pos := 70, mode := Mode.opened } }) := by
  obtain ⟨n1, f1, n2, f2, es, sz⟩ := decInfo
  simp only [] at hst
  unfold do_decoding open_files_dec fopen_r skip_bmp_header fseek_set
  simp only [hst]
  rw [decode_magic_string_eq _ _ (by simp only []; omega)]
  simp only [hm, if_false]

theorem unpack_bytes_two (t : List Nat) (q : Nat) :
    unpack_bytes t q 2
      = [decode_bytes_from_lsb (window t q 8), decode_bytes_from_lsb (window t (q + 8) 8)] := by
  unfold unpack_bytes
  rfl

theorem unpack_bytes_getD (t : List Nat) (q k j : Nat) (hj : j < k) :
    (unpack_bytes t q k).getD j 0 = decode_bytes_from_lsb (window t (q + 8 * j) 8) := by
  unfold unpack_bytes
  rw [List.getD_eq_getElem _ _ (by simpa using hj)]
  simp

/-! ## When the encoder succeeds -/

theorem do_encoding_success_inv (fs : FileSys) (encInfo : EncodeInfo) (junk : Nat → Nat)
    (s p : List Nat)
    (hsrc : fs.readable encInfo.src_image_fname = some s)
    (hsec : fs.readable encInfo.secret_fname = some p)
    (hlen : 26 ≤ s.length)
    (hok : (do_encoding fs encInfo junk).1 = Status.e_success) :
    fs.writable encInfo.stego_image_fname = true ∧ to_int32 p.length ≠ 0
    ∧ bmp_capacity s
      > Encoding_things 2 (to_int32 (strlen encInfo.extn_secret_file)) (to_int32 p.length) := by
  obtain ⟨n1, f1, c1, n2, f2, sz, ext, n3, f3⟩ := encInfo
  simp only [] at hsrc hsec ⊢
  have hm : to_int32 (strlen MAGIC_STRING) = 2 := by decide
  unfold do_encoding open_files fopen_r fopen_w at hok
  simp only [hsrc, hsec] at hok
  by_cases hw : fs.writable n3 = true
  · simp only [hw, if_true] at hok
    unfold check_capacity get_file_size at hok
    simp only [rewind, to_int32_idem] at hok
    by_cases hS : to_int32 p.length = 0
    · simp only [hS, if_true] at hok
      exact absurd hok (by decide)
    · simp only [if_neg hS] at hok
      rw [get_image_size_for_bmp_eq _ _ (by simp only []; omega)] at hok
      simp only [hm] at hok
      by_cases hc : bmp_capacity s > Encoding_things 2 (to_int32 (strlen ext)) (to_int32 p.length)
      · exact ⟨hw, hS, hc⟩
      · simp only [if_neg hc] at hok
        exact absurd hok (by decide)
  · simp only [hw] at hok
    exact absurd hok (by simp)

/-! ## What the encoder leaves unchanged -/

theorem take_eq_map_getD (w : List Nat) (n : Nat) (h : n ≤ w.length) :
    w.take n = (List.range n).map (fun i => w.getD i 0) := by
  apply List.ext_getElem
  · simp; omega
  · intro i h1 h2
    have hi : i < n := by simpa using h2
    rw [List.getElem_take, List.getElem_map, List.getElem_range,
      List.getD_eq_getElem _ _ (by omega)]

theorem map_clear_pack_msb (n v : Nat) (w : List Nat) (h : n ≤ w.length) :
    (pack_msb n v w).map (fun x => x / 2 * 2) = w.map (fun x => x / 2 * 2) := by
  have hw : w.map (fun x => x / 2 * 2)
      = (w.take n).map (fun x => x / 2 * 2) ++ (w.drop n).map (fun x => x / 2 * 2) := by
    rw [← List.map_append, List.take_append_drop]
  rw [hw, take_eq_map_getD w n h]
  unfold pack_msb
  rw [List.map_append, List.map_map, List.map_map]
  congr 1
  apply List.map_congr_left
  intro i _
  simp only [Function.comp]
  rw [put_bit_div _ _ (msb_bit_le _ _ _)]

theorem window_add (s : List Nat) (q a b : Nat) :
    window s q a ++ window s (q + a) b = window s q (a + b) := by
  unfold window
  rw [List.take_add, List.drop_drop]

theorem map_clear_pack_bytes (data s : List Nat) (q k : Nat) (h : q + 8 * k ≤ s.length) :
    (pack_bytes data s q k).map (fun x => x / 2 * 2)
      = (window s q (8 * k)).map (fun x => x / 2 * 2) := by
  induction k with
  | zero => simp [pack_bytes, window]
  | succ k ih =>
    rw [pack_bytes_succ, List.map_append, ih (by omega),
      map_clear_pack_msb _ _ _ (by rw [window_length _ _ _ (by omega)]), ← List.map_append,
      window_add]
    congr 2

theorem frame_stream_clear (s ext p : List Nat)
    (hlen : 134 + 8 * int_loop_count (to_int32 (strlen ext))
      + 8 * int_loop_count (to_int32 p.length) ≤ s.length) :
    (frame_stream s ext p).map (fun x => x / 2 * 2) = s.map (fun x => x / 2 * 2) := by
  unfold frame_stream
  simp only [List.map_append]
  rw [map_clear_pack_bytes _ _ _ _ (by omega), map_clear_pack_bytes _ _ _ _ (by omega),
    map_clear_pack_bytes _ _ _ _ (by omega),
    map_clear_pack_msb _ _ _ (by rw [window_length _ _ _ (by omega)]),
    map_clear_pack_msb _ _ _ (by rw [window_length _ _ _ (by omega)])]
  simp only [← List.map_append]
  congr 1
  have h1 := window_add s 0 54 (8 * 2)
  have h2 := window_add s 0 (54 + 8 * 2) 32
  have h3 := window_add s 0 (54 + 8 * 2 + 32) (8 * int_loop_count (to_int32 (strlen ext)))
  have h4 := window_add s 0
    (54 + 8 * 2 + 32 + 8 * int_loop_count (to_int32 (strlen ext))) 32
  have h5 := window_add s 0
    (54 + 8 * 2 + 32 + 8 * int_loop_count (to_int32 (strlen ext)) + 32)
    (8 * int_loop_count (to_int32 p.length))
  simp only [Nat.zero_add] at h1 h2 h3 h4 h5
  have e2 : 54 + 8 * 2 = 70 := rfl
  have e3 : 54 + 8 * 2 + 32 = 102 := rfl
  have e5 : 102 + 8 * int_loop_count (to_int32 (strlen ext)) + 32
      = 134 + 8 * int_loop_count (to_int32 (strlen ext)) := by omega
  simp only [e2, e3, e5] at h1 h2 h3 h4 h5
  rw [h1, h2, h3, h4, h5]
  unfold window
  rw [List.drop_zero, List.take_append_drop]

theorem frame_stream_take (s ext p : List Nat) (hlen : 54 ≤ s.length) :
    (frame_stream s ext p).take 54 = s.take 54 := by
  unfold frame_stream
  simp only [List.append_assoc]
  rw [List.take_left' (window_length _ _ _ (by omega))]
  unfold window
  rw [List.drop_zero]

theorem frame_stream_drop (s ext p : List Nat)
    (hlen : 134 + 8 * int_loop_count (to_int32 (strlen ext))
      + 8 * int_loop_count (to_int32 p.length) ≤ s.length) :
    (frame_stream s ext p).drop (134 + 8 * int_loop_count (to_int32 (strlen ext))
        + 8 * int_loop_count (to_int32 p.length))
      = s.drop (134 + 8 * int_loop_count (to_int32 (strlen ext))
        + 8 * int_loop_count (to_int32 p.length)) := by
  unfold frame_stream
  simp only []
  rw [List.drop_left' (by
    simp only [List.length_append]
    rw [window_length _ _ _ (by omega), pack_bytes_length _ _ _ _ (by omega),
      pack_msb_length _ _ _ (by rw [window_length _ _ _ (by omega)]),
      window_length _ _ _ (by omega), pack_bytes_length _ _ _ _ (by omega),
      pack_msb_length _ _ _ (by rw [window_length _ _ _ (by omega)]),
      window_length _ _ _ (by omega), pack_bytes_length _ _ _ _ (by omega)]
    omega)]

/-! ## Further facts about the two pipelines -/

theorem check_capacity_status (encInfo : EncodeInfo) (junk : Nat → Nat) :
    (check_capacity encInfo junk).1
      = if (get_file_size encInfo.fptr_secret).1 = 0 then Status.e_failure
        else if (get_image_size_for_bmp encInfo.fptr_src_image junk).1
            > Encoding_things 2 (to_int32 (strlen encInfo.extn_secret_file))
                (get_file_size encInfo.fptr_secret).1
          then Status.e_success else Status.e_failure := by
  have hm : to_int32 (strlen MAGIC_STRING) = 2 := by decide
  unfold check_capacity
  simp only [hm]
  split
  · rfl
  · split <;> rfl

theorem do_encoding_capacity_fail (fs : FileSys) (encInfo : EncodeInfo) (junk : Nat → Nat)
    (h : ∀ e0, open_files fs encInfo = (Status.e_success, e0) →
      (check_capacity e0 junk).1 = Status.e_failure) :
    (do_encoding fs encInfo junk).1 = Status.e_failure := by
  unfold do_encoding
  rcases h0 : open_files fs encInfo with ⟨st, e0⟩
  cases st with
  | e_failure => rfl
  | e_success =>
    have h1 := h e0 h0
    simp only []
    generalize check_capacity e0 junk = r at h1
    obtain ⟨st1, e1⟩ := r
    simp only [] at h1
    subst h1
    rfl

theorem open_files_secret (fs : FileSys) (encInfo e0 : EncodeInfo) (p : List Nat)
    (hsec : fs.readable encInfo.secret_fname = some p)
    (h : open_files fs encInfo = (Status.e_success, e0)) :
    e0.fptr_secret = { data := p, pos := 0, mode := Mode.opened } := by
  unfold open_files fopen_r fopen_w at h
  cases hsrc : fs.readable encInfo.src_image_fname with
  | none =>
    simp only [hsrc] at h
    exact absurd (congrArg Prod.fst h) (by simp)
  | some s =>
    simp only [hsrc, hsec] at h
    by_cases hw : fs.writable encInfo.stego_image_fname = true
    · simp only [hw, if_true] at h
      rw [← (Prod.mk.inj h).2]
    · simp only [hw] at h
      exact absurd (congrArg Prod.fst h) (by simp)

theorem drop_eq_of_le (t s : List Nat) (a b : Nat) (h : t.drop a = s.drop a) (hab : a ≤ b) :
    t.drop b = s.drop b := by
  obtain ⟨c, rfl⟩ := Nat.exists_eq_add_of_le hab
  rw [← List.drop_drop c a t, ← List.drop_drop c a s, h]

theorem do_encoding_stego (fs : FileSys) (encInfo : EncodeInfo) (junk : Nat → Nat)
    (s p : List Nat)
    (hsrc : fs.readable encInfo.src_image_fname = some s)
    (hsec : fs.readable encInfo.secret_fname = some p)
    (hok : (do_encoding fs encInfo junk).1 = Status.e_success)
    (hs : ∀ x ∈ s, x < 256) (hp : ∀ x ∈ p, x < 256)
    (hext : ∀ x ∈ encInfo.extn_secret_file, x < 256)
    (hlen : 54 + 8 * (2 + 4 + strlen encInfo.extn_secret_file + 4 + p.length) ≤ s.length) :
    (do_encoding fs encInfo junk).2.fptr_stego_image.data
        = frame_stream s encInfo.extn_secret_file p
    ∧ 134 + 8 * int_loop_count (to_int32 (strlen encInfo.extn_secret_file))
        + 8 * int_loop_count (to_int32 p.length) ≤ s.length := by
  have h1 := int_loop_count_le (to_int32 (strlen encInfo.extn_secret_file))
  have h2 := to_int32_le (strlen encInfo.extn_secret_file)
  have h3 := int_loop_count_le (to_int32 p.length)
  have h4 := to_int32_le p.length
  have hlen2 : 134 + 8 * int_loop_count (to_int32 (strlen encInfo.extn_secret_file))
      + 8 * int_loop_count (to_int32 p.length) ≤ s.length := by omega
  obtain ⟨hw, hS, hcap⟩ := do_encoding_success_inv fs encInfo junk s p hsrc hsec (by omega) hok
  rw [do_encoding_eq fs encInfo junk s p hsrc hsec hw hs hp hext hS hcap hlen2]
  exact ⟨rfl, hlen2⟩

theorem decode_bytes_parity (w : List Nat) :
    decode_bytes_from_lsb w % 2 = w.getD 7 0 % 2 := by
  rw [decode_bytes_from_lsb_eq]
  have h : List.range 8 = List.range 7 ++ [7] := List.range_succ 7
  rw [h, List.map_append, List.map_cons, List.map_nil, msb_value_append]
  omega

theorem fread_length (buf : List Nat) (f : RFile) (h : buf.length = 8) :
    (fread buf 8 f).1.length = 8 := by
  unfold fread
  simp only [List.length_append, List.length_take, List.length_drop]
  omega

theorem fread_short_last (buf : List Nat) (f : RFile)
    (hshort : f.data.length < f.pos + 8) :
    (fread buf 8 f).1.getD 7 0 = buf.getD 7 0 := by
  unfold fread
  have hg : ((f.data.drop f.pos).take 8).length ≤ 7 := by
    simp only [List.length_take, List.length_drop]
    omega
  simp only []
  rw [List.getD_append_right _ _ _ _ (by omega), List.getD_eq_getElem?_getD,
    List.getD_eq_getElem?_getD, List.getElem?_drop]
  congr 2
  omega

theorem fread_pos (buf : List Nat) (f : RFile) :
    (fread buf 8 f).2.data = f.data
    ∧ (fread buf 8 f).2.pos = f.pos + min 8 (f.data.length - f.pos) := by
  unfold fread
  simp only [List.length_take, List.length_drop]
  exact ⟨trivial, trivial⟩

theorem decode_magic_string_short (d : DecodeInfo) (junk : Nat → Nat)
    (hshort : d.fptr_stego_image.data.length < d.fptr_stego_image.pos + 16) :
    (decode_magic_string d junk).1 = Status.e_failure := by
  have hr : List.range 2 = [0, 1] := rfl
  have hu : uninit junk 3 = [junk 0 % 256, junk 1 % 256, junk 2 % 256] := rfl
  have hl1 := fread_length (uninit junk 8) d.fptr_stego_image (uninit_length junk 8)
  obtain ⟨hd1, hp1⟩ := fread_pos (uninit junk 8) d.fptr_stego_image
  have hpar : (fread (fread (uninit junk 8) 8 d.fptr_stego_image).1 8
        (fread (uninit junk 8) 8 d.fptr_stego_image).2).1.getD 7 0
      = (fread (uninit junk 8) 8 d.fptr_stego_image).1.getD 7 0 :=
    fread_short_last _ _ (by rw [hd1, hp1]; omega)
  have h1 := decode_bytes_parity (fread (uninit junk 8) 8 d.fptr_stego_image).1
  have h2 := decode_bytes_parity (fread (fread (uninit junk 8) 8 d.fptr_stego_image).1 8
        (fread (uninit junk 8) 8 d.fptr_stego_image).2).1
  rw [hpar] at h2
  unfold decode_magic_string
  simp only [hr, hu, List.foldl_cons, List.foldl_nil, List.set_cons_zero, List.set_cons_succ]
  have hc := cstr_magic
    [decode_bytes_from_lsb (fread (uninit junk 8) 8 d.fptr_stego_image).1,
     decode_bytes_from_lsb (fread (fread (uninit junk 8) 8 d.fptr_stego_image).1 8
        (fread (uninit junk 8) 8 d.fptr_stego_image).2).1] rfl
  simp only [List.cons_append, List.nil_append] at hc
  rw [hc]
  have hne : ¬ ([decode_bytes_from_lsb (fread (uninit junk 8) 8 d.fptr_stego_image).1,
     decode_bytes_from_lsb (fread (fread (uninit junk 8) 8 d.fptr_stego_image).1 8
        (fread (uninit junk 8) 8 d.fptr_stego_image).2).1] = MAGIC_STRING) := by
    intro heq
    unfold MAGIC_STRING at heq
    have e1 := (List.cons.inj heq).1
    have e2 := (List.cons.inj (List.cons.inj heq).2).1
    rw [e1] at h1
    rw [e2] at h2
    omega
  simp only [hne, decide_False, Bool.false_eq_true, if_false]

theorem decode_magic_string_frame (d : DecodeInfo) (junk : Nat → Nat) :
    (decode_magic_string d junk).2.fptr_secret_output = d.fptr_secret_output
    ∧ (decode_magic_string d junk).2.secret_output_fname = d.secret_output_fname := by
  unfold decode_magic_string
  simp only []
  split <;> exact ⟨rfl, rfl⟩

theorem do_decoding_magic_fail (fs : FileSys) (decInfo : DecodeInfo) (junk : Nat → Nat)
    (t : List Nat)
    (hst : fs.readable decInfo.stego_image_fname = some t)
    (h : (decode_magic_string
      { decInfo with fptr_stego_image := { data := t, pos := 54, mode := Mode.opened } }
      junk).1 = Status.e_failure) :
    do_decoding fs decInfo junk
      = (Status.e_failure, (decode_magic_string
          { decInfo with fptr_stego_image := { data := t, pos := 54, mode := Mode.opened } }
          junk).2) := by
  unfold do_decoding open_files_dec fopen_r skip_bmp_header fseek_set
  simp only [hst]
  generalize decode_magic_string
      { decInfo with fptr_stego_image := { data := t, pos := 54, mode := Mode.opened } }
      junk = r at h ⊢
  obtain ⟨st, d2⟩ := r
  simp only [] at h
  subst h
  rfl

/-! ## Claims -/

set_option maxRecDepth 100000

/-- C2. Byte round trip: for every byte value `b` (values from 128 on are negative as a C
`char`) and every 8-byte window `w`, `decode_bytes_from_lsb` applied to the window that
`encode_byte_to_lsb b w` leaves behind returns `b`. -/
theorem byte_round_trip (b : Nat) (w : List Nat) (hb : b < 256) (hlen : w.length = 8)
    (hw : ∀ x ∈ w, x < 256) :
    decode_bytes_from_lsb (encode_byte_to_lsb b w).2 = b := by
  rw [encode_byte_to_lsb_eq b w hb (by omega) hw]
  exact decode_pack_byte b w hb

theorem byte_round_trip_witness :
    decode_bytes_from_lsb (encode_byte_to_lsb 200 [255, 254, 3, 0, 128, 129, 77, 1]).2 = 200 :=
  byte_round_trip 200 [255, 254, 3, 0, 128, 129, 77, 1] (by decide) (by decide) (by decide)

/-- C3. Integer round trip: for every 32-bit pattern `n` (from `2 ^ 31` on it is a negative
`int`) and every 32-byte window `w`, `decode_int_from_lsb` applied to the window that
`encode_int_to_lsb n w` leaves behind returns `n`. -/
theorem int_round_trip (n : Nat) (w : List Nat) (hn : n < 4294967296) (hlen : w.length = 32)
    (hw : ∀ x ∈ w, x < 256) :
    decode_int_from_lsb (encode_int_to_lsb n w).2 = n := by
  rw [encode_int_to_lsb_eq n w (by omega) hw]
  exact decode_pack_int n w hn

theorem int_round_trip_witness :
    decode_int_from_lsb (encode_int_to_lsb 4000000000 (List.replicate 32 255)).2
      = 4000000000 :=
  int_round_trip 4000000000 (List.replicate 32 255) (by decide) (by decide) (by decide)

/-- C4. Visual fidelity at stream level: when `do_encoding` succeeds on a source stream
`s` long enough to hold the frame, the stego stream `t` has the length of `s` and, at every
index, `t[i]` with bit 0 cleared equals `s[i]` with bit 0 cleared. -/
theorem encode_preserves_upper_bits (fs : FileSys) (encInfo : EncodeInfo) (junk : Nat → Nat)
    (s p : List Nat)
    (hsrc : fs.readable encInfo.src_image_fname = some s)
    (hsec : fs.readable encInfo.secret_fname = some p)
    (hok : (do_encoding fs encInfo junk).1 = Status.e_success)
    (hs : ∀ x ∈ s, x < 256) (hp : ∀ x ∈ p, x < 256)
    (hext : ∀ x ∈ encInfo.extn_secret_file, x < 256)
    (hlen : 54 + 8 * (2 + 4 + strlen encInfo.extn_secret_file + 4 + p.length) ≤ s.length) :
    (do_encoding fs encInfo junk).2.fptr_stego_image.data.length = s.length
    ∧ ∀ i, i < s.length →
        (do_encoding fs encInfo junk).2.fptr_stego_image.data.getD i 0 / 2 * 2
          = s.getD i 0 / 2 * 2 := by
  obtain ⟨ht, hlen2⟩ := do_encoding_stego fs encInfo junk s p hsrc hsec hok hs hp hext hlen
  have hl := frame_stream_length s encInfo.extn_secret_file p hlen2
  have hc := frame_stream_clear s encInfo.extn_secret_file p hlen2
  rw [ht]
  refine ⟨hl, ?_⟩
  intro i hi
  have h1 : ((frame_stream s encInfo.extn_secret_file p).map (fun x => x / 2 * 2))[i]?
      = (s.map (fun x => x / 2 * 2))[i]? := by rw [hc]
  rw [List.getElem?_map, List.getElem?_map, List.getElem?_eq_getElem (by omega),
    List.getElem?_eq_getElem hi] at h1
  rw [List.getD_eq_getElem _ _ (by omega), List.getD_eq_getElem _ _ hi]
  simpa using h1

theorem encode_preserves_upper_bits_witness :
    (do_encoding demo_fs demo_encInfo demo_junk).2.fptr_stego_image.data.length
        = demo_image.length
    ∧ (do_encoding demo_fs demo_encInfo demo_junk).2.fptr_stego_image.data.getD 54 0 / 2 * 2
        = demo_image.getD 54 0 / 2 * 2 :=
  have h := encode_preserves_upper_bits demo_fs demo_encInfo demo_junk demo_image demo_secret
    (by decide) (by decide) (by decide) (by decide) (by decide) (by decide) (by decide)
  ⟨h.1, h.2 54 (by decide)⟩

/-- C5. Persisted frame layout: when `do_encoding` succeeds on a source stream long enough
to hold the frame, with an extension of `E` and a payload of `P` bytes (both below
`2 ^ 31`), the stego stream `t` decodes field by field: the windows at 54 and 62 give `#`
and `*`, the 32 bytes at 70 give `E`, the `E` windows from 102 on give the characters of the
extension, the 32 bytes at `102 + 8 * E` give `P`, and the `P` windows from `134 + 8 * E` on
give the bytes of the payload. -/
theorem stego_frame_layout (fs : FileSys) (encInfo : EncodeInfo) (junk : Nat → Nat)
    (s p : List Nat)
    (hsrc : fs.readable encInfo.src_image_fname = some s)
    (hsec : fs.readable encInfo.secret_fname = some p)
    (hok : (do_encoding fs encInfo junk).1 = Status.e_success)
    (hs : ∀ x ∈ s, x < 256) (hp : ∀ x ∈ p, x < 256)
    (hext : ∀ x ∈ encInfo.extn_secret_file, x < 256)
    (hE : strlen encInfo.extn_secret_file < 2147483648) (hP : p.length < 2147483648)
    (hlen : 54 + 8 * (2 + 4 + strlen encInfo.extn_secret_file + 4 + p.length) ≤ s.length) :
    decode_bytes_from_lsb (window (do_encoding fs encInfo junk).2.fptr_stego_image.data 54 8)
        = 35
    ∧ decode_bytes_from_lsb (window (do_encoding fs encInfo junk).2.fptr_stego_image.data 62 8)
        = 42
    ∧ decode_int_from_lsb (window (do_encoding fs encInfo junk).2.fptr_stego_image.data 70 32)
        = strlen encInfo.extn_secret_file
    ∧ (∀ j, j < strlen encInfo.extn_secret_file →
        decode_bytes_from_lsb
            (window (do_encoding fs encInfo junk).2.fptr_stego_image.data (102 + 8 * j) 8)
          = encInfo.extn_secret_file.getD j 0)
    ∧ decode_int_from_lsb
          (window (do_encoding fs encInfo junk).2.fptr_stego_image.data
            (102 + 8 * strlen encInfo.extn_secret_file) 32)
        = p.length
    ∧ (∀ j, j < p.length →
        decode_bytes_from_lsb
            (window (do_encoding fs encInfo junk).2.fptr_stego_image.data
              (134 + 8 * strlen encInfo.extn_secret_file + 8 * j) 8)
          = p.getD j 0) := by
  obtain ⟨ht, _⟩ := do_encoding_stego fs encInfo junk s p hsrc hsec hok hs hp hext hlen
  unfold strlen at hE hlen ⊢
  obtain ⟨f1, f2, f3, f4, f5⟩ := frame_stream_fields s encInfo.extn_secret_file p hE hP hext hp
    (by omega)
  rw [ht]
  rw [unpack_bytes_two] at f1
  have f1a := (List.cons.inj f1).1
  have f1b := (List.cons.inj (List.cons.inj f1).2).1
  refine ⟨f1a, f1b, f2, ?_, f4, ?_⟩
  · intro j hj
    rw [← unpack_bytes_getD _ 102 _ j hj, f3]
  · intro j hj
    rw [← unpack_bytes_getD _ (134 + 8 * encInfo.extn_secret_file.length) _ j hj, f5]

theorem stego_frame_layout_witness :
    decode_bytes_from_lsb
        (window (do_encoding demo_fs demo_encInfo demo_junk).2.fptr_stego_image.data 54 8) = 35
    ∧ decode_bytes_from_lsb
        (window (do_encoding demo_fs demo_encInfo demo_junk).2.fptr_stego_image.data 62 8) = 42
    ∧ decode_int_from_lsb
        (window (do_encoding demo_fs demo_encInfo demo_junk).2.fptr_stego_image.data 70 32) = 4
    ∧ decode_int_from_lsb
        (window (do_encoding demo_fs demo_encInfo demo_junk).2.fptr_stego_image.data 134 32)
        = 5 :=
  have h := stego_frame_layout demo_fs demo_encInfo demo_junk demo_image demo_secret
    (by decide) (by decide) (by decide) (by decide) (by decide) (by decide) (by decide)
    (by decide) (by decide)
  ⟨h.1, h.2.1, h.2.2.1, h.2.2.2.2.1⟩

/-- C6. Verbatim header and tail: when `do_encoding` succeeds on a source stream `s` of
length at least `54 + 8 * (2 + 4 + E + 4 + P)`, the stego stream `t` has the length of `s`,
its first 54 bytes are those of `s`, and from index `54 + 8 * (2 + 4 + E + 4 + P)` on
it holds the bytes of `s`. -/
theorem header_and_tail_verbatim (fs : FileSys) (encInfo : EncodeInfo) (junk : Nat → Nat)
    (s p : List Nat)
    (hsrc : fs.readable encInfo.src_image_fname = some s)
    (hsec : fs.readable encInfo.secret_fname = some p)
    (hok : (do_encoding fs encInfo junk).1 = Status.e_success)
    (hs : ∀ x ∈ s, x < 256) (hp : ∀ x ∈ p, x < 256)
    (hext : ∀ x ∈ encInfo.extn_secret_file, x < 256)
    (hlen : 54 + 8 * (2 + 4 + strlen encInfo.extn_secret_file + 4 + p.length) ≤ s.length) :
    (do_encoding fs encInfo junk).2.fptr_stego_image.data.length = s.length
    ∧ (do_encoding fs encInfo junk).2.fptr_stego_image.data.take 54 = s.take 54
    ∧ (do_encoding fs encInfo junk).2.fptr_stego_image.data.drop
          (54 + 8 * (2 + 4 + strlen encInfo.extn_secret_file + 4 + p.length))
        = s.drop (54 + 8 * (2 + 4 + strlen encInfo.extn_secret_file + 4 + p.length)) := by
  obtain ⟨ht, hlen2⟩ := do_encoding_stego fs encInfo junk s p hsrc hsec hok hs hp hext hlen
  have h1 := int_loop_count_le (to_int32 (strlen encInfo.extn_secret_file))
  have h2 := to_int32_le (strlen encInfo.extn_secret_file)
  have h3 := int_loop_count_le (to_int32 p.length)
  have h4 := to_int32_le p.length
  rw [ht]
  refine ⟨frame_stream_length s _ p hlen2, frame_stream_take s _ p (by omega), ?_⟩
  exact drop_eq_of_le _ _ _ _ (frame_stream_drop s encInfo.extn_secret_file p hlen2) (by omega)

theorem header_and_tail_verbatim_witness :
    (do_encoding demo_fs demo_encInfo demo_junk).2.fptr_stego_image.data.length
        = demo_image.length
    ∧ (do_encoding demo_fs demo_encInfo demo_junk).2.fptr_stego_image.data.take 54
        = demo_image.take 54
    ∧ (do_encoding demo_fs demo_encInfo demo_junk).2.fptr_stego_image.data.drop
          (54 + 8 * (2 + 4 + strlen demo_encInfo.extn_secret_file + 4 + demo_secret.length))
        = demo_image.drop
          (54 + 8 * (2 + 4 + strlen demo_encInfo.extn_secret_file + 4 + demo_secret.length)) :=
  header_and_tail_verbatim demo_fs demo_encInfo demo_junk demo_image demo_secret
    (by decide) (by decide) (by decide) (by decide) (by decide) (by decide) (by decide)

/-- C7 (amended). Capacity formula in 32-bit unsigned arithmetic: for an image file that
holds its width and height fields (26 bytes or more), `check_capacity` succeeds if and
only if the payload length is non-zero modulo `2 ^ 32` and `capacityBytes > requiredBytes`,
where `capacityBytes = (width * height * 3) % 2 ^ 32` and
`requiredBytes = (54 + 8 * 2 + 32 + 8 * extensionLen + 32 + 8 * payloadLen) % 2 ^ 32`. -/
theorem check_capacity_formula_mod (encInfo : EncodeInfo) (junk : Nat → Nat)
    (hlen : 26 ≤ encInfo.fptr_src_image.data.length) :
    (check_capacity encInfo junk).1 = Status.e_success ↔
      (encInfo.fptr_secret.data.length % 4294967296 ≠ 0
        ∧ (le32 (window encInfo.fptr_src_image.data 18 4)
            * le32 (window encInfo.fptr_src_image.data 22 4) * 3) % 4294967296
          > (54 + 8 * 2 + 32 + 8 * strlen encInfo.extn_secret_file + 32
              + 8 * encInfo.fptr_secret.data.length) % 4294967296) := by
  have hreq : Encoding_things 2 (to_int32 (strlen encInfo.extn_secret_file))
      (to_int32 encInfo.fptr_secret.data.length)
      = (54 + 8 * 2 + 32 + 8 * strlen encInfo.extn_secret_file + 32
          + 8 * encInfo.fptr_secret.data.length) % 4294967296 := by
    unfold Encoding_things to_int32
    omega
  have hgs : (get_file_size encInfo.fptr_secret).1
      = to_int32 encInfo.fptr_secret.data.length := rfl
  have hcap : bmp_capacity encInfo.fptr_src_image.data
      = (le32 (window encInfo.fptr_src_image.data 18 4)
          * le32 (window encInfo.fptr_src_image.data 22 4) * 3) % 4294967296 := rfl
  have hz32 : to_int32 encInfo.fptr_secret.data.length
      = encInfo.fptr_secret.data.length % 4294967296 := rfl
  rw [check_capacity_status, get_image_size_for_bmp_eq _ _ hlen, hgs, hreq, hcap, hz32]
  by_cases hz : encInfo.fptr_secret.data.length % 4294967296 = 0
  · rw [if_pos hz]
    constructor
    · intro h; exact absurd h (by decide)
    · intro h; exact absurd hz h.1
  · rw [if_neg hz]
    by_cases hc : (le32 (window encInfo.fptr_src_image.data 18 4)
          * le32 (window encInfo.fptr_src_image.data 22 4) * 3) % 4294967296
        > (54 + 8 * 2 + 32 + 8 * strlen encInfo.extn_secret_file + 32
            + 8 * encInfo.fptr_secret.data.length) % 4294967296
    · rw [if_pos hc]
      exact ⟨fun _ => ⟨hz, hc⟩, fun _ => rfl⟩
    · rw [if_neg hc]
      constructor
      · intro h; exact absurd h (by decide)
      · intro h; exact absurd h.2 hc

theorem check_capacity_formula_mod_witness :
    (check_capacity edge_encInfo demo_junk).1 = Status.e_success ↔
      (edge_encInfo.fptr_secret.data.length % 4294967296 ≠ 0
        ∧ (le32 (window edge_encInfo.fptr_src_image.data 18 4)
            * le32 (window edge_encInfo.fptr_src_image.data 22 4) * 3) % 4294967296
          > (54 + 8 * 2 + 32 + 8 * strlen edge_encInfo.extn_secret_file + 32
              + 8 * edge_encInfo.fptr_secret.data.length) % 4294967296) :=
  check_capacity_formula_mod edge_encInfo demo_junk (by decide)

/-- C7 (counterexample). For a header whose width and height fields both hold 65536, a
one-byte payload and the extension `.txt`, the payload is not empty and
`width * height * 3 = 12884901888` exceeds the 174 bytes required, yet `check_capacity`
fails: the product wraps around to 0 in `uint` arithmetic. -/
theorem check_capacity_formula_overflow :
    ¬ ((check_capacity wide_encInfo demo_junk).1 = Status.e_success ↔
      (wide_encInfo.fptr_secret.data.length ≠ 0
        ∧ le32 (window wide_encInfo.fptr_src_image.data 18 4)
            * le32 (window wide_encInfo.fptr_src_image.data 22 4) * 3
          > 54 + 8 * 2 + 32 + 8 * strlen wide_encInfo.extn_secret_file + 32
              + 8 * wide_encInfo.fptr_secret.data.length)) := by
  decide

/-- C8. Capacity boundary: whenever the payload size the checker obtains is non-zero,
`check_capacity` fails when the image capacity it computes equals the required number of
bytes it computes, and succeeds when the capacity equals that number plus one. -/
theorem check_capacity_boundary (encInfo : EncodeInfo) (junk : Nat → Nat)
    (hP : (get_file_size encInfo.fptr_secret).1 ≠ 0) :
    ((get_image_size_for_bmp encInfo.fptr_src_image junk).1
        = (54 + 8 * 2 + 32 + 8 * strlen encInfo.extn_secret_file + 32
            + 8 * (get_file_size encInfo.fptr_secret).1) % 4294967296
      → (check_capacity encInfo junk).1 = Status.e_failure)
    ∧ ((get_image_size_for_bmp encInfo.fptr_src_image junk).1
        = (54 + 8 * 2 + 32 + 8 * strlen encInfo.extn_secret_file + 32
            + 8 * (get_file_size encInfo.fptr_secret).1) % 4294967296 + 1
      → (check_capacity encInfo junk).1 = Status.e_success) := by
  have hreq : Encoding_things 2 (to_int32 (strlen encInfo.extn_secret_file))
      (get_file_size encInfo.fptr_secret).1
      = (54 + 8 * 2 + 32 + 8 * strlen encInfo.extn_secret_file + 32
          + 8 * (get_file_size encInfo.fptr_secret).1) % 4294967296 := by
    unfold Encoding_things to_int32
    omega
  rw [check_capacity_status, if_neg hP, hreq]
  constructor
  · intro h
    rw [if_neg (by omega)]
  · intro h
    rw [if_pos (by omega)]

theorem check_capacity_boundary_witness :
    (check_capacity edge_encInfo demo_junk).1 = Status.e_success :=
  (check_capacity_boundary edge_encInfo demo_junk (by decide)).2 (by decide)

/-- C9. Empty payload is rejected: when the secret file holds no bytes, whatever the image
is, `check_capacity` returns failure on the state `open_files` hands over, and
`do_encoding` returns failure. -/
theorem empty_payload_rejected (fs : FileSys) (encInfo : EncodeInfo) (junk : Nat → Nat)
    (hsec : fs.readable encInfo.secret_fname = some []) :
    (∀ e0, open_files fs encInfo = (Status.e_success, e0) →
        (check_capacity e0 junk).1 = Status.e_failure)
    ∧ (do_encoding fs encInfo junk).1 = Status.e_failure := by
  have h : ∀ e0, open_files fs encInfo = (Status.e_success, e0) →
      (check_capacity e0 junk).1 = Status.e_failure := by
    intro e0 h0
    rw [check_capacity_status, open_files_secret fs encInfo e0 [] hsec h0]
    rfl
  exact ⟨h, do_encoding_capacity_fail fs encInfo junk h⟩

theorem empty_payload_rejected_witness :
    (do_encoding empty_secret_fs demo_encInfo demo_junk).1 = Status.e_failure :=
  (empty_payload_rejected empty_secret_fs demo_encInfo demo_junk (by decide)).2

/-- C10. Marker mismatch is a hard failure: for every carrier stream that does not hold, in
full, sixteen bytes at offset 54 whose bit 0 decodes to `#` and `*`, `do_decoding` returns
failure, and the output stream and the output name are still what they were before the
call: the output file has not been opened and no byte has been written. -/
theorem marker_mismatch_fails (fs : FileSys) (decInfo : DecodeInfo) (junk : Nat → Nat)
    (t : List Nat)
    (hst : fs.readable decInfo.stego_image_fname = some t)
    (hm : ¬ (70 ≤ t.length ∧ decode_bytes_from_lsb (window t 54 8) = 35
      ∧ decode_bytes_from_lsb (window t 62 8) = 42)) :
    (do_decoding fs decInfo junk).1 = Status.e_failure
    ∧ (do_decoding fs decInfo junk).2.fptr_secret_output = decInfo.fptr_secret_output
    ∧ (do_decoding fs decInfo junk).2.secret_output_fname = decInfo.secret_output_fname := by
  by_cases hl : 70 ≤ t.length
  · have hne : unpack_bytes t 54 2 ≠ MAGIC_STRING := by
      rw [unpack_bytes_two]
      intro heq
      unfold MAGIC_STRING at heq
      exact hm ⟨hl, (List.cons.inj heq).1, (List.cons.inj (List.cons.inj heq).2).1⟩
    rw [do_decoding_marker_mismatch fs decInfo junk t hst hl hne]
    exact ⟨rfl, rfl, rfl⟩
  · have hf := decode_magic_string_short
      { decInfo with fptr_stego_image := { data := t, pos := 54, mode := Mode.opened } } junk
      (by simp only []; omega)
    rw [do_decoding_magic_fail fs decInfo junk t hst hf]
    exact ⟨rfl, decode_magic_string_frame _ junk⟩

theorem marker_mismatch_fails_witness :
    (do_decoding (fs_of_stream demo_image) demo_decInfo demo_junk).1 = Status.e_failure
    ∧ (do_decoding (fs_of_stream demo_image) demo_decInfo demo_junk).2.fptr_secret_output
        = null_w
    ∧ (do_decoding (fs_of_stream demo_image) demo_decInfo demo_junk).2.secret_output_fname
        = [111, 117, 116] :=
  marker_mismatch_fails (fs_of_stream demo_image) demo_decInfo demo_junk demo_image rfl
    (by decide)

/-! ## The decoder on any stream -/

theorem decode_secret_file_extn_checked_some (fs : FileSys) (d : DecodeInfo) (junk : Nat → Nat)
    (r : Status × DecodeInfo) (h : decode_secret_file_extn_checked fs d junk = some r) :
    r = decode_secret_file_extn fs d junk := by
  unfold decode_secret_file_extn_checked at h
  simp only [] at h
  by_cases hn : (d.extn_size + 1) % 4294967296 ≤ d.extn_size
  · rw [if_pos hn] at h
    exact absurd h (by simp)
  · rw [if_neg hn] at h
    have hn2 : (d.extn_size + 1) % 4294967296 = d.extn_size + 1 := by
      have := Nat.mod_le (d.extn_size + 1) 4294967296
      omega
    rw [hn2] at h
    unfold decode_secret_file_extn
    simp only []
    generalize (List.range d.extn_size).foldl
      (fun (st : List Nat × List Nat × RFile) i =>
        let rd := fread st.2.1 8 st.2.2
        (st.1.set i (decode_bytes_from_lsb rd.1), rd.1, rd.2))
      (uninit junk (d.extn_size + 1), uninit junk 8, d.fptr_stego_image) = q at h ⊢
    unfold strcat at h
    by_cases hc : strlen d.secret_output_fname + strlen (cstr (q.1.set d.extn_size 0)) + 1
        ≤ secret_output_fname_size
    · rw [if_pos hc] at h
      simp only [] at h
      cases hf : fopen_w fs (d.secret_output_fname ++ cstr (q.1.set d.extn_size 0)) with
      | none =>
        simp only [hf] at h ⊢
        exact (Option.some.inj h).symm
      | some out =>
        simp only [hf] at h ⊢
        exact (Option.some.inj h).symm
    · rw [if_neg hc] at h
      exact absurd h (by simp)

theorem do_decoding_checked_some (fs : FileSys) (decInfo : DecodeInfo) (junk : Nat → Nat)
    (r : Status × DecodeInfo) (h : do_decoding_checked fs decInfo junk = some r) :
    r = do_decoding fs decInfo junk := by
  unfold do_decoding_checked at h
  unfold do_decoding
  generalize open_files_dec fs decInfo = r0 at h ⊢
  obtain ⟨s0, d0⟩ := r0
  cases s0
  · simp only [] at h ⊢
    generalize skip_bmp_header d0 = r1 at h ⊢
    obtain ⟨s1, d1⟩ := r1
    cases s1
    · simp only [] at h ⊢
      generalize decode_magic_string d1 junk = r2 at h ⊢
      obtain ⟨s2, d2⟩ := r2
      cases s2
      · simp only [] at h ⊢
        generalize decode_secret_file_extn_size d2 junk = r3 at h ⊢
        obtain ⟨s3, d3⟩ := r3
        cases s3
        · simp only [] at h ⊢
          cases h4 : decode_secret_file_extn_checked fs d3 junk with
          | none =>
            rw [h4] at h
            exact absurd h (by simp)
          | some r4 =>
            rw [h4] at h
            rw [← decode_secret_file_extn_checked_some fs d3 junk r4 h4]
            obtain ⟨s4, d4⟩ := r4
            cases s4
            · simp only [] at h ⊢
              generalize decode_secret_file_size d4 junk = r5 at h ⊢
              obtain ⟨s5, d5⟩ := r5
              cases s5
              · simp only [] at h ⊢
                generalize decode_secret_file_data d5 junk = r6 at h ⊢
                obtain ⟨s6, d6⟩ := r6
                cases s6
                · exact (Option.some.inj h).symm
                · exact (Option.some.inj h).symm
              · exact (Option.some.inj h).symm
            · exact (Option.some.inj h).symm
        · exact (Option.some.inj h).symm
      · exact (Option.some.inj h).symm
    · exact (Option.some.inj h).symm
  · exact (Option.some.inj h).symm

theorem open_files_stego (fs : FileSys) (encInfo e0 : EncodeInfo)
    (h : open_files fs encInfo = (Status.e_success, e0)) :
    fs.writable encInfo.stego_image_fname = true
    ∧ e0.fptr_stego_image = { data := [], mode := Mode.opened }
    ∧ e0.fptr_src_image.mode = Mode.opened ∧ e0.fptr_secret.mode = Mode.opened := by
  unfold open_files fopen_r fopen_w at h
  cases hsrc : fs.readable encInfo.src_image_fname with
  | none =>
    simp only [hsrc] at h
    exact absurd (congrArg Prod.fst h) (by simp)
  | some s =>
    cases hsec : fs.readable encInfo.secret_fname with
    | none =>
      simp only [hsrc, hsec] at h
      exact absurd (congrArg Prod.fst h) (by simp)
    | some p =>
      simp only [hsrc, hsec] at h
      by_cases hw : fs.writable encInfo.stego_image_fname = true
      · simp only [hw, if_true] at h
        rw [← (Prod.mk.inj h).2]
        exact ⟨hw, rfl, rfl, rfl⟩
      · simp only [hw] at h
        exact absurd (congrArg Prod.fst h) (by simp)

theorem check_capacity_streams (encInfo : EncodeInfo) (junk : Nat → Nat) :
    (check_capacity encInfo junk).2.fptr_stego_image = encInfo.fptr_stego_image
    ∧ (check_capacity encInfo junk).2.fptr_src_image.mode = encInfo.fptr_src_image.mode
    ∧ (check_capacity encInfo junk).2.fptr_secret.mode = encInfo.fptr_secret.mode := by
  unfold check_capacity
  simp only []
  split
  · exact ⟨rfl, rfl, rfl⟩
  · split <;> exact ⟨rfl, rfl, rfl⟩

theorem do_encoding_capacity_state (fs : FileSys) (encInfo e0 : EncodeInfo) (junk : Nat → Nat)
    (h0 : open_files fs encInfo = (Status.e_success, e0))
    (h1 : (check_capacity e0 junk).1 = Status.e_failure) :
    do_encoding fs encInfo junk = (Status.e_failure, (check_capacity e0 junk).2) := by
  unfold do_encoding
  rw [h0]
  simp only []
  generalize check_capacity e0 junk = r at h1
  obtain ⟨st1, e1⟩ := r
  simp only [] at h1
  subst h1
  rfl

/-- C12 (amended). The output is opened before the capacity gate: in `do_encoding`,
`open_files` opens the stego output for writing and only then `check_capacity` runs; whenever
`check_capacity` fails, `do_encoding` returns failure, the stego output file has been opened
(created or truncated) and no byte has been written to it. -/
theorem capacity_failure_after_open (fs : FileSys) (encInfo e0 : EncodeInfo)
    (junk : Nat → Nat)
    (h0 : open_files fs encInfo = (Status.e_success, e0))
    (h1 : (check_capacity e0 junk).1 = Status.e_failure) :
    (do_encoding fs encInfo junk).1 = Status.e_failure
    ∧ fs.writable encInfo.stego_image_fname = true
    ∧ (do_encoding fs encInfo junk).2.fptr_stego_image = { data := [], mode := Mode.opened } := by
  obtain ⟨hw, hst, _, _⟩ := open_files_stego fs encInfo e0 h0
  rw [do_encoding_capacity_state fs encInfo e0 junk h0 h1]
  exact ⟨rfl, hw, by rw [(check_capacity_streams e0 junk).1, hst]⟩

theorem capacity_failure_after_open_witness :
    (do_encoding empty_secret_fs demo_encInfo demo_junk).1 = Status.e_failure
    ∧ empty_secret_fs.writable demo_encInfo.stego_image_fname = true
    ∧ (do_encoding empty_secret_fs demo_encInfo demo_junk).2.fptr_stego_image
        = { data := [], mode := Mode.opened } :=
  capacity_failure_after_open empty_secret_fs demo_encInfo (open_files empty_secret_fs
    demo_encInfo).2 demo_junk (by decide) (by decide)

/-- C12 (counterexample). With an empty secret file `check_capacity` fails and `do_encoding`
returns failure, yet the stego output, which was not open before the call, is open
afterwards: `open_files` has opened it for writing before the capacity check. -/
theorem stego_opened_before_capacity_check :
    demo_encInfo.fptr_stego_image.mode = Mode.unopened
    ∧ (check_capacity (open_files empty_secret_fs demo_encInfo).2 demo_junk).1
        = Status.e_failure
    ∧ (do_encoding empty_secret_fs demo_encInfo demo_junk).1 = Status.e_failure
    ∧ (do_encoding empty_secret_fs demo_encInfo demo_junk).2.fptr_stego_image.mode
        ≠ Mode.unopened := by
  decide

/-! ## Bit positions and sums -/

theorem pack_msb_drop (n v : Nat) (w : List Nat) : (pack_msb n v w).drop n = w.drop n := by
  unfold pack_msb
  rw [List.drop_left' (by simp)]

theorem msb_value_sum (bit : Nat → Nat) (n : Nat) :
    msb_value ((List.range n).map bit)
      = ((List.range n).map (fun i => bit i * 2 ^ (n - 1 - i))).sum := by
  induction n with
  | zero => simp [msb_value]
  | succ n ih =>
    rw [List.range_succ, List.map_append, List.map_cons, List.map_nil, msb_value_append, ih,
      List.map_append, List.sum_append, List.map_cons, List.map_nil, List.sum_cons, List.sum_nil]
    have hlast : n + 1 - 1 - n = 0 := by omega
    rw [hlast, Nat.pow_zero, Nat.mul_one, Nat.add_zero]
    congr 1
    rw [← List.sum_map_mul_left]
    congr 1
    apply List.map_congr_left
    intro i hi
    have hi2 : i < n := List.mem_range.mp hi
    have he : n + 1 - 1 - i = (n - 1 - i) + 1 := by omega
    rw [he, Nat.pow_succ]
    ring

/-- C13. MSB-first packing of a byte: for every byte value `v` and every 8-byte window `w`,
after `encode_byte_to_lsb v w` bit 0 of window byte `i` is bit `7 - i` of `v`, for each
`i` below 8; bit 7 of `v` is in byte 0 and bit 0 of `v` in byte 7. -/
theorem encode_byte_msb_first (v : Nat) (w : List Nat) (hv : v < 256) (hlen : w.length = 8)
    (hw : ∀ x ∈ w, x < 256) :
    (∀ i, i < 8 → (encode_byte_to_lsb v w).2.getD i 0 % 2 = v / 2 ^ (7 - i) % 2)
    ∧ (encode_byte_to_lsb v w).2.getD 0 0 % 2 = v / 128 % 2
    ∧ (encode_byte_to_lsb v w).2.getD 7 0 % 2 = v % 2 := by
  have h : ∀ i, i < 8 → (encode_byte_to_lsb v w).2.getD i 0 % 2 = v / 2 ^ (7 - i) % 2 := by
    intro i hi
    rw [encode_byte_to_lsb_eq v w hv (by omega) hw, pack_msb_getD 8 v w i hi,
      put_bit_mod _ _ (msb_bit_le _ _ _)]
    rfl
  refine ⟨h, ?_, ?_⟩
  · have h0 := h 0 (by omega)
    simpa using h0
  · have h7 := h 7 (by omega)
    simpa using h7

theorem encode_byte_msb_first_witness :
    (encode_byte_to_lsb 128 [255, 255, 255, 255, 255, 255, 255, 255]).2.getD 0 0 % 2
        = 128 / 128 % 2
    ∧ (encode_byte_to_lsb 128 [255, 255, 255, 255, 255, 255, 255, 255]).2.getD 7 0 % 2
        = 128 % 2 :=
  (encode_byte_msb_first 128 [255, 255, 255, 255, 255, 255, 255, 255] (by decide) (by decide)
    (by decide)).2

/-- C14. Packing touches only bit 0: `encode_byte_to_lsb` keeps the length of the buffer,
leaves bits 1 to 7 of each of its first 8 bytes as they were and leaves every byte from index
8 on as it was; `encode_int_to_lsb` does the same with 32 in place of 8. -/
theorem encode_touches_only_bit0 (v n : Nat) (w : List Nat) (hv : v < 256)
    (hw : ∀ x ∈ w, x < 256) :
    (8 ≤ w.length →
      (encode_byte_to_lsb v w).2.length = w.length
      ∧ (∀ i, i < 8 → (encode_byte_to_lsb v w).2.getD i 0 / 2 = w.getD i 0 / 2)
      ∧ (encode_byte_to_lsb v w).2.drop 8 = w.drop 8)
    ∧ (32 ≤ w.length →
      (encode_int_to_lsb n w).2.length = w.length
      ∧ (∀ i, i < 32 → (encode_int_to_lsb n w).2.getD i 0 / 2 = w.getD i 0 / 2)
      ∧ (encode_int_to_lsb n w).2.drop 32 = w.drop 32) := by
  constructor
  · intro hlen
    rw [encode_byte_to_lsb_eq v w hv hlen hw]
    refine ⟨pack_msb_length 8 v w hlen, ?_, pack_msb_drop 8 v w⟩
    intro i hi
    rw [pack_msb_getD 8 v w i hi, put_bit_div _ _ (msb_bit_le _ _ _)]
  · intro hlen
    rw [encode_int_to_lsb_eq n w hlen hw]
    refine ⟨pack_msb_length 32 n w hlen, ?_, pack_msb_drop 32 n w⟩
    intro i hi
    rw [pack_msb_getD 32 n w i hi, put_bit_div _ _ (msb_bit_le _ _ _)]

theorem encode_touches_only_bit0_witness :
    (encode_byte_to_lsb 200 (List.replicate 40 255)).2.length = 40
    ∧ (encode_byte_to_lsb 200 (List.replicate 40 255)).2.drop 8 = List.replicate 32 255
    ∧ (encode_int_to_lsb 4000000000 (List.replicate 40 255)).2.drop 32
        = List.replicate 8 255 :=
  have h := encode_touches_only_bit0 200 4000000000 (List.replicate 40 255) (by decide)
    (by decide)
  ⟨(h.1 (by decide)).1, (h.1 (by decide)).2.2, (h.2 (by decide)).2.2⟩

/-- C15. Reference definition of unpacking a byte: for every window `w`,
`decode_bytes_from_lsb w` is the sum over `i` below 8 of `(w[i] % 2) * 2 ^ (7 - i)`; hence a
window that has the same bit 0 as `w` in each of its first 8 bytes decodes to the same
byte. -/
theorem decode_byte_is_lsb_sum (w : List Nat) :
    decode_bytes_from_lsb w
        = ((List.range 8).map (fun i => w.getD i 0 % 2 * 2 ^ (7 - i))).sum
    ∧ ∀ w2 : List Nat, (∀ i, i < 8 → w2.getD i 0 % 2 = w.getD i 0 % 2) →
        decode_bytes_from_lsb w2 = decode_bytes_from_lsb w := by
  constructor
  · rw [decode_bytes_from_lsb_eq, msb_value_sum]
  · intro w2 h
    rw [decode_bytes_from_lsb_eq, decode_bytes_from_lsb_eq]
    congr 1
    apply List.map_congr_left
    intro i hi
    exact h i (List.mem_range.mp hi)

theorem decode_byte_is_lsb_sum_witness :
    decode_bytes_from_lsb [2, 4, 7, 8, 10, 12, 15, 17]
      = decode_bytes_from_lsb [0, 0, 1, 0, 0, 0, 1, 1] :=
  (decode_byte_is_lsb_sum [0, 0, 1, 0, 0, 0, 1, 1]).2 [2, 4, 7, 8, 10, 12, 15, 17] (by decide)

/-- C16. MSB-first 32-bit convention: for every value `n` (32-bit or not) and every 32-byte window
`w`, after `encode_int_to_lsb n w` bit 0 of window byte `i` is bit `31 - i` of `n`, for
each `i` below 32; and `decode_int_from_lsb w` is the sum over `i` below 32 of
`(w[i] % 2) * 2 ^ (31 - i)`. -/
theorem int_msb_first (n : Nat) (w : List Nat) (hlen : w.length = 32)
    (hw : ∀ x ∈ w, x < 256) :
    (∀ i, i < 32 → (encode_int_to_lsb n w).2.getD i 0 % 2 = n / 2 ^ (31 - i) % 2)
    ∧ decode_int_from_lsb w
        = ((List.range 32).map (fun i => w.getD i 0 % 2 * 2 ^ (31 - i))).sum := by
  constructor
  · intro i hi
    rw [encode_int_to_lsb_eq n w (by omega) hw, pack_msb_getD 32 n w i hi,
      put_bit_mod _ _ (msb_bit_le _ _ _)]
    rfl
  · rw [decode_int_from_lsb_eq, msb_value_sum]

theorem int_msb_first_witness :
    (encode_int_to_lsb 2147483648 (List.replicate 32 254)).2.getD 0 0 % 2
      = 2147483648 / 2 ^ (31 - 0) % 2 :=
  (int_msb_first 2147483648 (List.replicate 32 254) (by decide) (by decide)).1 0
    (by decide)

theorem window_getD (s : List Nat) (off n i : Nat) (hi : i < n) :
    (window s off n).getD i 0 = s.getD (off + i) 0 := by
  unfold window
  rw [List.getD_eq_getElem?_getD, List.getD_eq_getElem?_getD, List.getElem?_take_of_lt hi,
    List.getElem?_drop]

/-- C18 (amended). Image capacity in 32-bit unsigned arithmetic: for every image file that
holds its width and height fields (26 bytes or more), `get_image_size_for_bmp` returns
`(width * height * 3) % 2 ^ 32`, where `width` and `height` are the little-endian 32-bit
values of the bytes at offsets 18 to 21 and 22 to 25; it is `width * height * 3` itself
when that product is below `2 ^ 32`. -/
theorem image_size_mod (f : RFile) (junk : Nat → Nat) (hlen : 26 ≤ f.data.length) :
    (get_image_size_for_bmp f junk).1
        = (le32 (window f.data 18 4) * le32 (window f.data 22 4) * 3) % 4294967296
    ∧ le32 (window f.data 18 4)
        = (f.data.getD 18 0 + 256 * f.data.getD 19 0 + 65536 * f.data.getD 20 0
            + 16777216 * f.data.getD 21 0) % 4294967296
    ∧ le32 (window f.data 22 4)
        = (f.data.getD 22 0 + 256 * f.data.getD 23 0 + 65536 * f.data.getD 24 0
            + 16777216 * f.data.getD 25 0) % 4294967296
    ∧ (le32 (window f.data 18 4) * le32 (window f.data 22 4) * 3 < 4294967296 →
        (get_image_size_for_bmp f junk).1
          = le32 (window f.data 18 4) * le32 (window f.data 22 4) * 3) := by
  have h1 : (get_image_size_for_bmp f junk).1
      = (le32 (window f.data 18 4) * le32 (window f.data 22 4) * 3) % 4294967296 := by
    rw [get_image_size_for_bmp_eq f junk hlen]
    rfl
  refine ⟨h1, ?_, ?_, ?_⟩
  · unfold le32
    rw [window_getD _ 18 4 0 (by omega), window_getD _ 18 4 1 (by omega),
      window_getD _ 18 4 2 (by omega), window_getD _ 18 4 3 (by omega)]
  · unfold le32
    rw [window_getD _ 22 4 0 (by omega), window_getD _ 22 4 1 (by omega),
      window_getD _ 22 4 2 (by omega), window_getD _ 22 4 3 (by omega)]
  · intro hlt
    rw [h1, Nat.mod_eq_of_lt hlt]

theorem image_size_mod_witness :
    (get_image_size_for_bmp { data := demo_image, pos := 0, mode := Mode.opened } demo_junk).1
      = le32 (window demo_image 18 4) * le32 (window demo_image 22 4) * 3 :=
  (image_size_mod { data := demo_image, pos := 0, mode := Mode.opened } demo_junk
    (by decide)).2.2.2 (by decide)

/-- C18 (counterexample). For the header `wide_header`, whose width and height fields both
hold 65536, `get_image_size_for_bmp` returns 0 and not `width * height * 3`, which is
12884901888. -/
theorem image_size_wraps :
    le32 (window wide_header 18 4) = 65536
    ∧ le32 (window wide_header 22 4) = 65536
    ∧ (get_image_size_for_bmp { data := wide_header, pos := 0, mode := Mode.opened }
        demo_junk).1 = 0
    ∧ (get_image_size_for_bmp { data := wide_header, pos := 0, mode := Mode.opened }
        demo_junk).1
      ≠ le32 (window wide_header 18 4) * le32 (window wide_header 22 4) * 3 := by
  decide

/-- C19 (the code at failing inputs). `read_and_validate_encode_args` accepts
`prog -e a.bmp s.txt` and stores the extension `.txt`, but it rejects the image name
`x.bmp.bmp`, which ends in `.bmp`, and the secret names `my.notes.txt` and `./a.txt`, which
have the extension `.txt`: `strstr` stops at the first `.bmp` and at the first dot. -/
theorem validate_args_first_occurrence :
    (read_and_validate_encode_args argv_plain demo_encInfo).1 = Status.e_success
    ∧ (read_and_validate_encode_args argv_plain demo_encInfo).2.extn_secret_file = str_txt
    ∧ (read_and_validate_encode_args argv_double_bmp demo_encInfo).1 = Status.e_failure
    ∧ (read_and_validate_encode_args argv_two_dots demo_encInfo).1 = Status.e_failure
    ∧ (read_and_validate_encode_args argv_dot_slash demo_encInfo).1 = Status.e_failure := by
  decide

/-- C20 (the code at failing inputs). When `do_encoding` succeeds its three streams are
closed; when it fails on the capacity check the three streams it opened are still open; when
it fails because the secret file cannot be opened the source stream is still open; when
`do_decoding` fails on the marker its stego stream is still open. -/
theorem failure_paths_leave_streams_open :
    ((do_encoding demo_fs demo_encInfo demo_junk).1 = Status.e_success
      ∧ (do_encoding demo_fs demo_encInfo demo_junk).2.fptr_src_image.mode = Mode.closed
      ∧ (do_encoding demo_fs demo_encInfo demo_junk).2.fptr_secret.mode = Mode.closed
      ∧ (do_encoding demo_fs demo_encInfo demo_junk).2.fptr_stego_image.mode = Mode.closed)
    ∧ ((do_encoding empty_secret_fs demo_encInfo demo_junk).1 = Status.e_failure
      ∧ (do_encoding empty_secret_fs demo_encInfo demo_junk).2.fptr_src_image.mode
          = Mode.opened
      ∧ (do_encoding empty_secret_fs demo_encInfo demo_junk).2.fptr_secret.mode = Mode.opened
      ∧ (do_encoding empty_secret_fs demo_encInfo demo_junk).2.fptr_stego_image.mode
          = Mode.opened)
    ∧ ((do_encoding demo_fs missing_secret_encInfo demo_junk).1 = Status.e_failure
      ∧ (do_encoding demo_fs missing_secret_encInfo demo_junk).2.fptr_src_image.mode
          = Mode.opened)
    ∧ ((do_decoding (fs_of_stream demo_image) demo_decInfo demo_junk).1 = Status.e_failure
      ∧ (do_decoding (fs_of_stream demo_image) demo_decInfo demo_junk).2.fptr_stego_image.mode
          = Mode.opened) := by
  decide

/-! ## Names of the output files -/

theorem validate_encode_success (argv : List (List Nat)) (encInfo : EncodeInfo)
    (hok : (read_and_validate_encode_args argv encInfo).1 = Status.e_success) :
    (strcmp_eq ((strstr (argv.getD 3 []) [46]).getD []) str_txt = true
      ∨ strcmp_eq ((strstr (argv.getD 3 []) [46]).getD []) str_c = true
      ∨ strcmp_eq ((strstr (argv.getD 3 []) [46]).getD []) str_sh = true)
    ∧ (read_and_validate_encode_args argv encInfo).2.extn_secret_file
        = (strstr (argv.getD 3 []) [46]).getD []
    ∧ (read_and_validate_encode_args argv encInfo).2.stego_image_fname
        = (argv[4]?).getD str_stego_bmp := by
  unfold read_and_validate_encode_args at hok ⊢
  simp only [] at hok ⊢
  by_cases c1 : strstr (argv.getD 2 []) str_bmp ≠ none
      ∧ strcmp_eq ((strstr (argv.getD 2 []) str_bmp).getD []) str_bmp = true
  · rw [if_pos c1] at hok ⊢
    by_cases c2 : strstr (argv.getD 3 []) [46] ≠ none
        ∧ (strcmp_eq ((strstr (argv.getD 3 []) [46]).getD []) str_txt = true
          ∨ strcmp_eq ((strstr (argv.getD 3 []) [46]).getD []) str_c = true
          ∨ strcmp_eq ((strstr (argv.getD 3 []) [46]).getD []) str_sh = true)
    · rw [if_pos c2] at hok ⊢
      cases h4 : argv[4]? with
      | none => exact ⟨c2.2, rfl, rfl⟩
      | some a =>
        simp only [h4] at hok ⊢
        by_cases c3 : strstr a str_bmp ≠ none
            ∧ strcmp_eq ((strstr a str_bmp).getD []) str_bmp = true
        · rw [if_pos c3]
          exact ⟨c2.2, rfl, rfl⟩
        · rw [if_neg c3] at hok
          exact absurd hok (by simp)
    · rw [if_neg c2] at hok
      exact absurd hok (by simp)
  · rw [if_neg c1] at hok
    exact absurd hok (by simp)

theorem check_capacity_success_state (e0 : EncodeInfo) (junk : Nat → Nat)
    (hlen : 26 ≤ e0.fptr_src_image.data.length)
    (hok : (check_capacity e0 junk).1 = Status.e_success) :
    to_int32 e0.fptr_secret.data.length ≠ 0
    ∧ bmp_capacity e0.fptr_src_image.data
        > Encoding_things 2 (to_int32 (strlen e0.extn_secret_file))
            (to_int32 e0.fptr_secret.data.length)
    ∧ (check_capacity e0 junk).2
        = { e0 with
            secret_file_size := to_int32 e0.fptr_secret.data.length,
            fptr_secret := { e0.fptr_secret with pos := 0 },
            image_capacity := bmp_capacity e0.fptr_src_image.data,
            fptr_src_image := { e0.fptr_src_image with pos := 26 } } := by
  have hm : to_int32 (strlen MAGIC_STRING) = 2 := by decide
  unfold check_capacity get_file_size at hok ⊢
  simp only [rewind, to_int32_idem, hm] at hok ⊢
  by_cases hS : to_int32 e0.fptr_secret.data.length = 0
  · rw [if_pos hS] at hok
    exact absurd hok (by simp)
  · rw [if_neg hS] at hok ⊢
    rw [get_image_size_for_bmp_eq _ _ hlen] at hok ⊢
    simp only [] at hok ⊢
    by_cases hc : bmp_capacity e0.fptr_src_image.data
        > Encoding_things 2 (to_int32 (strlen e0.extn_secret_file))
            (to_int32 e0.fptr_secret.data.length)
    · rw [if_pos hc]
      exact ⟨hS, hc, rfl⟩
    · rw [if_neg hc] at hok
      exact absurd hok (by simp)

theorem source_positions_eq (e1 : EncodeInfo) (junk : Nat → Nat)
    (hs : ∀ x ∈ e1.fptr_src_image.data, x < 256)
    (hp : ∀ x ∈ e1.fptr_secret.data, x < 256)
    (hext : ∀ x ∈ e1.extn_secret_file, x < 256)
    (hsz : e1.fptr_secret.pos + e1.secret_file_size ≤ e1.fptr_secret.data.length)
    (hlen : 134 + 8 * int_loop_count (to_int32 (strlen e1.extn_secret_file))
      + 8 * int_loop_count (to_int32 e1.secret_file_size) ≤ e1.fptr_src_image.data.length) :
    source_positions e1 junk
      = [54, 70, 102, 102 + 8 * int_loop_count (to_int32 (strlen e1.extn_secret_file)),
          134 + 8 * int_loop_count (to_int32 (strlen e1.extn_secret_file)),
          134 + 8 * int_loop_count (to_int32 (strlen e1.extn_secret_file))
            + 8 * int_loop_count (to_int32 e1.secret_file_size)] := by
  obtain ⟨n1, f1, c1, n2, f2, sz, ext, n3, f3⟩ := e1
  simp only [] at hs hp hext hsz hlen
  have hm : to_int32 (strlen MAGIC_STRING) = 2 := by decide
  have hc2 : int_loop_count 2 = 2 := by decide
  unfold source_positions
  simp only []
  rw [copy_bmp_header_eq _ _ _ (by omega)]
  simp only []
  rw [encode_magic_string_eq _ _ _ (by simpa using hs) (by decide)
    (by simp only [hm, hc2]; omega)]
  simp only [hm, hc2]
  rw [encode_secret_file_extn_size_eq _ _ _ (by simpa using hs) (by simp only []; omega)]
  simp only []
  rw [encode_secret_file_extn_eq _ _ _ (by simpa using hs) (by simpa using hext)
    (by simp only []; omega)]
  simp only []
  rw [encode_secret_file_size_eq _ _ _ (by simpa using hs) (by simp only []; omega)]
  simp only []
  rw [encode_secret_file_data_eq _ _ (by simpa using hs) (by simpa using hp)
    (by simpa using hsz) (by simp only []; omega)]
  simp only [List.cons.injEq, and_true]
  refine ⟨?_, ?_, ?_, ?_, ?_, ?_⟩ <;> first | trivial | omega

/-- C22. Capacity check implies no short read: when `check_capacity` succeeds on the state
`open_files` hands over, with no wrap-around in the required number of bytes (it is below
`2 ^ 32`), and the source stream holds at least `54 + image_capacity` bytes
(`image_capacity` being the 32-bit value the check stored), the read position of the source after the header, the marker, the extension length,
the extension, the payload length and the payload is each time the previous position plus
the bytes requested (54, 70, 102, `102 + 8 * E`, `134 + 8 * E`, `134 + 8 * E + 8 * P`): every
window is read in full, and the last position is still below the length of the stream. -/
theorem capacity_implies_full_reads (fs : FileSys) (encInfo : EncodeInfo) (junk : Nat → Nat)
    (s p : List Nat)
    (hsrc : fs.readable encInfo.src_image_fname = some s)
    (hsec : fs.readable encInfo.secret_fname = some p)
    (hout : fs.writable encInfo.stego_image_fname = true)
    (hs : ∀ x ∈ s, x < 256) (hp : ∀ x ∈ p, x < 256)
    (hext : ∀ x ∈ encInfo.extn_secret_file, x < 256)
    (hok : (check_capacity (open_files fs encInfo).2 junk).1 = Status.e_success)
    (hwrap2 : 54 + 8 * (2 + 4 + strlen encInfo.extn_secret_file + 4 + p.length) < 4294967296)
    (hhold : 54 + (check_capacity (open_files fs encInfo).2 junk).2.image_capacity ≤ s.length) :
    source_positions (check_capacity (open_files fs encInfo).2 junk).2 junk
        = [54, 70, 102, 102 + 8 * strlen encInfo.extn_secret_file,
            134 + 8 * strlen encInfo.extn_secret_file,
            134 + 8 * strlen encInfo.extn_secret_file + 8 * p.length]
    ∧ 134 + 8 * strlen encInfo.extn_secret_file + 8 * p.length < s.length := by
  obtain ⟨n1, f1, c1, n2, f2, sz, ext, n3, f3⟩ := encInfo
  simp only [] at hsrc hsec hout hext hwrap2
  have h0 : open_files fs
      { src_image_fname := n1, fptr_src_image := f1, image_capacity := c1, secret_fname := n2,
        fptr_secret := f2, secret_file_size := sz, extn_secret_file := ext,
        stego_image_fname := n3, fptr_stego_image := f3 }
      = (Status.e_success,
        { src_image_fname := n1,
          fptr_src_image := { data := s, pos := 0, mode := Mode.opened },
          image_capacity := c1, secret_fname := n2,
          fptr_secret := { data := p, pos := 0, mode := Mode.opened },
          secret_file_size := sz, extn_secret_file := ext, stego_image_fname := n3,
          fptr_stego_image := { data := [], mode := Mode.opened } }) := by
    unfold open_files fopen_r fopen_w
    simp only [hsrc, hsec, hout, if_true]
  rw [h0] at hok hhold ⊢
  simp only [] at hok hhold ⊢
  have h26 : 26 ≤ s.length := by omega
  obtain ⟨hS, hcap, hstate⟩ := check_capacity_success_state _ junk (by simpa using h26) hok
  rw [hstate] at hhold ⊢
  simp only [] at hS hcap hhold ⊢
  unfold strlen at hwrap2 hcap ⊢
  have hE32 : to_int32 ext.length = ext.length := by unfold to_int32; omega
  have hP32 : to_int32 p.length = p.length := by unfold to_int32; omega
  have hEc : int_loop_count ext.length = ext.length := by
    unfold int_loop_count; rw [if_pos (by omega)]
  have hPc : int_loop_count p.length = p.length := by
    unfold int_loop_count; rw [if_pos (by omega)]
  have hreq : Encoding_things 2 ext.length p.length
      = 54 + 8 * (2 + 4 + ext.length + 4 + p.length) := by
    unfold Encoding_things; omega
  rw [hE32, hP32, hreq] at hcap
  have hlen : 134 + 8 * ext.length + 8 * p.length < s.length := by omega
  refine ⟨?_, hlen⟩
  rw [source_positions_eq _ junk (by simpa using hs) (by simpa using hp)
    (by simpa using hext) (by simp only [hP32]; omega)
    (by simp only [strlen, hE32, hP32, hEc, hPc, to_int32_idem]; omega)]
  simp only [strlen, hE32, hP32, hEc, hPc, to_int32_idem]

theorem capacity_implies_full_reads_witness :
    source_positions (check_capacity (open_files demo_fs demo_encInfo).2 demo_junk).2 demo_junk
        = [54, 70, 102, 102 + 8 * strlen demo_encInfo.extn_secret_file,
            134 + 8 * strlen demo_encInfo.extn_secret_file,
            134 + 8 * strlen demo_encInfo.extn_secret_file + 8 * demo_secret.length]
    ∧ 134 + 8 * strlen demo_encInfo.extn_secret_file + 8 * demo_secret.length
        < demo_image.length :=
  capacity_implies_full_reads demo_fs demo_encInfo demo_junk demo_image demo_secret
    (by decide) (by decide) (by decide) (by decide) (by decide) (by decide) (by decide)
    (by decide) (by decide)

/-! ## Status of the encoder, repeated packing, stored extension -/

theorem encode_steps_status (fs : FileSys) (encInfo : EncodeInfo) (junk : Nat → Nat)
    (e0 e1 : EncodeInfo)
    (h0 : open_files fs encInfo = (Status.e_success, e0))
    (h1 : check_capacity e0 junk = (Status.e_success, e1)) :
    (do_encoding fs encInfo junk).1 = Status.e_success := by
  unfold do_encoding
  rw [h0]
  simp only []
  rw [h1]
  rfl

/-- C23. Encode success condition: `do_encoding` returns `e_success` if and only if
`open_files` succeeds and `check_capacity`, run on the state `open_files` hands over,
succeeds; each later step returns `e_success` on every input, whatever the length of the
source stream. -/
theorem do_encoding_success_iff (fs : FileSys) (encInfo : EncodeInfo) (junk : Nat → Nat) :
    ((do_encoding fs encInfo junk).1 = Status.e_success ↔
      ((open_files fs encInfo).1 = Status.e_success
        ∧ (check_capacity (open_files fs encInfo).2 junk).1 = Status.e_success))
    ∧ (∀ (src : RFile) (dest : WFile), (copy_bmp_header src dest junk).1 = Status.e_success)
    ∧ (∀ (m : List Nat) (e : EncodeInfo), (encode_magic_string m e junk).1 = Status.e_success)
    ∧ (∀ (n : Nat) (e : EncodeInfo),
        (encode_secret_file_extn_size n e junk).1 = Status.e_success)
    ∧ (∀ (x : List Nat) (e : EncodeInfo),
        (encode_secret_file_extn x e junk).1 = Status.e_success)
    ∧ (∀ (n : Nat) (e : EncodeInfo), (encode_secret_file_size n e junk).1 = Status.e_success)
    ∧ (∀ e : EncodeInfo, (encode_secret_file_data e junk).1 = Status.e_success)
    ∧ (∀ (src : RFile) (dest : WFile),
        (copy_remaining_img_data src dest).1 = Status.e_success) := by
  refine ⟨?_, fun _ _ => rfl, fun _ _ => rfl, fun _ _ => rfl, fun _ _ => rfl, fun _ _ => rfl,
    fun _ => rfl, fun _ _ => rfl⟩
  constructor
  · intro hok
    rcases h0 : open_files fs encInfo with ⟨st0, e0⟩
    cases st0 with
    | e_failure =>
      unfold do_encoding at hok
      rw [h0] at hok
      exact absurd hok (by simp)
    | e_success =>
      rcases h1 : check_capacity e0 junk with ⟨st1, e1⟩
      cases st1 with
      | e_failure =>
        unfold do_encoding at hok
        rw [h0] at hok
        simp only [] at hok
        rw [h1] at hok
        exact absurd hok (by simp)
      | e_success => exact ⟨rfl, rfl⟩
  · intro ⟨ha, hb⟩
    rcases h0 : open_files fs encInfo with ⟨st0, e0⟩
    rw [h0] at ha hb
    simp only [] at ha hb
    subst ha
    rcases h1 : check_capacity e0 junk with ⟨st1, e1⟩
    rw [h1] at hb
    simp only [] at hb
    subst hb
    exact encode_steps_status fs encInfo junk e0 e1 h0 h1

theorem strstr_suffix (h n r : List Nat) (hs : strstr h n = some r) : ∃ pre, h = pre ++ r := by
  induction h with
  | nil =>
    unfold strstr at hs
    by_cases hn : n = []
    · rw [if_pos hn] at hs
      exact ⟨[], by rw [← Option.some.inj hs]; rfl⟩
    · rw [if_neg hn] at hs
      exact absurd hs (by simp)
  | cons c cs ih =>
    unfold strstr at hs
    by_cases hc : (c :: cs).take n.length = n
    · rw [if_pos hc] at hs
      exact ⟨[], by rw [← Option.some.inj hs]; rfl⟩
    · rw [if_neg hc] at hs
      obtain ⟨pre, hpre⟩ := ih hs
      exact ⟨c :: pre, by rw [hpre]; rfl⟩

theorem cstr_eq_self (l : List Nat) (hl : ∀ x ∈ l, x ≠ 0) : cstr l = l := by
  unfold cstr
  exact List.takeWhile_eq_self_iff.mpr (by intro x hx; simpa using hl x hx)

theorem strcmp_eq_literal (r lit : List Nat) (hr : ∀ x ∈ r, x ≠ 0) (hlit : ∀ x ∈ lit, x ≠ 0)
    (h : strcmp_eq r lit = true) : r = lit := by
  unfold strcmp_eq at h
  rw [cstr_eq_self r hr, cstr_eq_self lit hlit] at h
  simpa using h

/-- C25. Extension invariant: whenever `read_and_validate_encode_args` succeeds on a
command line whose secret file name is a C string (no NUL in it), the stored extension is
exactly one of `.txt`, `.c`, `.sh`; its length is 2, 3 or 4, so that with its terminator it
fits the 5 bytes of `extn_secret_file`, and the extension length `do_encoding` passes on to
the frame is 2, 3 or 4. -/
theorem stored_extension_whitelisted (argv : List (List Nat)) (encInfo : EncodeInfo)
    (hstr : ∀ c ∈ argv.getD 3 [], c ≠ 0)
    (hok : (read_and_validate_encode_args argv encInfo).1 = Status.e_success) :
    ((read_and_validate_encode_args argv encInfo).2.extn_secret_file = str_txt
      ∨ (read_and_validate_encode_args argv encInfo).2.extn_secret_file = str_c
      ∨ (read_and_validate_encode_args argv encInfo).2.extn_secret_file = str_sh)
    ∧ (strlen (read_and_validate_encode_args argv encInfo).2.extn_secret_file = 2
      ∨ strlen (read_and_validate_encode_args argv encInfo).2.extn_secret_file = 3
      ∨ strlen (read_and_validate_encode_args argv encInfo).2.extn_secret_file = 4)
    ∧ strlen (read_and_validate_encode_args argv encInfo).2.extn_secret_file + 1 ≤ 5
    ∧ (to_int32 (strlen (read_and_validate_encode_args argv encInfo).2.extn_secret_file) = 2
      ∨ to_int32 (strlen (read_and_validate_encode_args argv encInfo).2.extn_secret_file) = 3
      ∨ to_int32 (strlen (read_and_validate_encode_args argv encInfo).2.extn_secret_file)
          = 4) := by
  obtain ⟨hcmp, hext, _⟩ := validate_encode_success argv encInfo hok
  rw [hext]
  have hr : ∀ x ∈ (strstr (argv.getD 3 []) [46]).getD [], x ≠ 0 := by
    cases hs : strstr (argv.getD 3 []) [46] with
    | none => intro x hx; simp at hx
    | some r =>
      obtain ⟨pre, hpre⟩ := strstr_suffix _ _ r hs
      intro x hx
      exact hstr x (by rw [hpre]; exact List.mem_append_right pre hx)
  have hwl : (strstr (argv.getD 3 []) [46]).getD [] = str_txt
      ∨ (strstr (argv.getD 3 []) [46]).getD [] = str_c
      ∨ (strstr (argv.getD 3 []) [46]).getD [] = str_sh := by
    rcases hcmp with h | h | h
    · exact Or.inl (strcmp_eq_literal _ _ hr (by decide) h)
    · exact Or.inr (Or.inl (strcmp_eq_literal _ _ hr (by decide) h))
    · exact Or.inr (Or.inr (strcmp_eq_literal _ _ hr (by decide) h))
  refine ⟨hwl, ?_, ?_, ?_⟩
  · rcases hwl with h | h | h
    · rw [h]; exact Or.inr (Or.inr rfl)
    · rw [h]; exact Or.inl rfl
    · rw [h]; exact Or.inr (Or.inl rfl)
  · rcases hwl with h | h | h <;> rw [h] <;> decide
  · rcases hwl with h | h | h
    · rw [h]; exact Or.inr (Or.inr rfl)
    · rw [h]; exact Or.inl rfl
    · rw [h]; exact Or.inr (Or.inl rfl)

theorem stored_extension_whitelisted_witness :
    (read_and_validate_encode_args argv_plain demo_encInfo).2.extn_secret_file = str_txt
      ∨ (read_and_validate_encode_args argv_plain demo_encInfo).2.extn_secret_file = str_c
      ∨ (read_and_validate_encode_args argv_plain demo_encInfo).2.extn_secret_file = str_sh :=
  (stored_extension_whitelisted argv_plain demo_encInfo (by decide) (by decide)).1

end Stego
